import Mathlib

/-!
Verification development for the `mzip` ZIP-extractor core
(`src/zipextractor/core/{validation,extraction,progress,models}.py`).

Python strings are modelled as `List Char`; the filesystem is modelled as an
association list from full path strings to file contents, with directories
abstracted by boolean oracles.  Path resolution is modelled lexically
(symlink-free filesystem); machine-level failures (OSError and friends) are
modelled as explicit outcome fields of the `World` the engine runs in.
-/

/-- Python strings are modelled as lists of characters. -/
abbrev Str := List Char

/-- Convert a Lean string literal to the model's string type. -/
def str (s : String) : Str := s.toList

/-- `str.split("/")` from Python: splits at every `'/'`, keeping empty parts.
`pySplit [] = [[]]` mirrors `"".split("/") == ['']`. -/
def pySplit : Str → List Str
  | [] => [[]]
  | c :: rest =>
    let ps := pySplit rest
    if c = '/' then [] :: ps
    else (c :: ps.headI) :: ps.tail

theorem pySplit_ne_nil (s : Str) : pySplit s ≠ [] := by
  cases s with
  | nil => simp [pySplit]
  | cons c rest =>
    simp only [pySplit]
    split <;> simp

/-- `str.replace("\\", "/")` from Python (single-character replacement). -/
def normSeps (s : Str) : Str := s.map (fun c => if c = '\\' then '/' else c)

/-- Drop a trailing run of characters satisfying `p`. -/
def dropTrailing (p : Char → Bool) (s : Str) : Str := (s.reverse.dropWhile p).reverse

/-- `str.strip("/")` from Python: removes leading and trailing `'/'` runs. -/
def pyStrip (s : Str) : Str := dropTrailing (fun c => c = '/') (s.dropWhile (fun c => c = '/'))

/-- Separator normalisation plus strip, as done by `detect_root_folder`. -/
def pyNormalize (s : Str) : Str := pyStrip (normSeps s)

/-- Rebuild a path string from `'/'`-separated segments. -/
def joinSegs : List Str → Str
  | [] => []
  | [s] => s
  | s :: rest => s ++ '/' :: joinSegs rest

/-- `pathlib`'s `/` operator restricted to the shapes the engine uses:
joining a directory path with a relative entry name. -/
def pyJoin (base name : Str) : Str :=
  if base = str "." then name
  else if base.getLast? = some '/' then base ++ name
  else base ++ '/' :: name

/-- Decimal rendering of a natural number (used for " (N)" rename counters
and timestamp suffixes). -/
def natStr (n : ℕ) : Str := Nat.toDigits 10 n

/-- Last path component (`Path(p).name`). -/
def lastComponent (p : Str) : Str := (pySplit p).getLastD []

/-- Index of the last `'.'` in a name, if any. -/
def rfindDot (name : Str) : Option ℕ :=
  ((List.range name.length).filter (fun i => name.getD i ' ' = '.')).getLast?

/-- `Path(p).stem`: the final component without its extension; the extension
only counts when the last dot is neither the first nor the last character. -/
def pyStem (p : Str) : Str :=
  let name := lastComponent p
  match rfindDot name with
  | some i => if 0 < i ∧ i < name.length - 1 then name.take i else name
  | none => name

/-- `Path(p).suffix`: the extension, including the dot, or `[]`. -/
def pySuffix (p : Str) : Str :=
  let name := lastComponent p
  match rfindDot name with
  | some i => if 0 < i ∧ i < name.length - 1 then name.drop i else []

  | none => []

/-- `Path(p).parent` (for the path shapes the engine uses). -/
def pyParent (p : Str) : Str :=
  let segs := pySplit p
  if segs.length ≤ 1 then str "."
  else if segs.dropLast = [[]] then str "/"
  else joinSegs segs.dropLast

/-- Split an absolute path into its (possibly empty) raw components. -/
def pathParts (p : Str) : List Str := (pySplit p).filter (fun s => s ≠ [])

-- Sanity checks on the string layer.
example : pySplit (str "a/b") = [str "a", str "b"] := by decide
example : pySplit (str "a//b") = [str "a", [], str "b"] := by decide
example : pyNormalize (str "/a\\b/") = str "a/b" := by decide
example : pyStem (str "/tmp/file.txt") = str "file" := by decide
example : pySuffix (str "/tmp/file.txt") = str ".txt" := by decide
example : pyParent (str "/tmp/file.txt") = str "/tmp" := by decide
example : pyJoin (str "/out") (str "a.txt") = str "/out/a.txt" := by decide

/-! ## Path Safety Checker (`validation.is_safe_path`) -/

/-- POSIX `Path(p).is_absolute()`: true iff the path starts with `'/'`. -/
def isAbsolute : Str → Bool
  | '/' :: _ => true
  | _ => false

/-- One step of lexical path resolution: empty and `"."` segments are
dropped, `".."` removes the last component (a no-op at the root, as in
POSIX `resolve()`), anything else is appended. -/
def resolveStep (stack : List Str) (seg : Str) : List Str :=
  if seg = [] ∨ seg = ['.'] then stack
  else if seg = ['.', '.'] then stack.dropLast
  else stack ++ [seg]

/-- Lexical resolution of a segment sequence (symlink-free `Path.resolve()`). -/
def resolveComps (segs : List Str) : List Str := segs.foldl resolveStep []

/-- Resolve an absolute path string to its canonical component list. -/
def resolveAbs (p : Str) : List Str := resolveComps (pySplit p)

/-- `os.path.commonpath` on two already-resolved component lists: the longest
common component-wise prefix. -/
def commonPath : List Str → List Str → List Str
  | x :: xs, y :: ys => if x = y then x :: commonPath xs ys else []
  | _, _ => []

/-- `validation.is_safe_path(base_path, target_path)`: rejects absolute
targets, rejects any target with a `".."` segment after separator
normalisation, then resolves `base / target` and accepts iff the common path
with the resolved base is the resolved base itself.  Resolution errors
cannot arise in this lexical model (both paths are absolute and on one
device), matching the `except` branches returning `False`. -/
def is_safe_path (base_path target_path : Str) : Bool :=
  if isAbsolute target_path then false
  else
    let normalized := normSeps target_path
    if (pySplit normalized).contains ['.', '.'] then false
    else
      let base_resolved := resolveAbs base_path
      let target_resolved := resolveComps (pySplit base_path ++ pySplit target_path)
      commonPath base_resolved target_resolved == base_resolved

example : is_safe_path (str "/extract") (str "sub/file.txt") = true := by decide
example : is_safe_path (str "/extract") (str "../etc/passwd") = false := by decide
example : is_safe_path (str "/extract") (str "/etc/passwd") = false := by decide
example : is_safe_path (str "/extract") (str "a\\..\\b") = false := by decide

/-! ## Root-folder detection (`validation.detect_root_folder`) -/

/-- `validation.detect_root_folder(file_paths)`: collects the first segment of
every non-empty normalised path into a set; if the set is a singleton and
every non-empty normalised path equals that segment or starts with
`segment + "/"`, returns it, else `none`. -/
def detect_root_folder (file_paths : List Str) : Option Str :=
  if file_paths.isEmpty then none
  else
    let root_folders :=
      (file_paths.filterMap (fun p =>
        let n := pyNormalize p
        if n = [] then none else some (pySplit n).headI)).dedup
    if root_folders.length = 1 then
      let root := root_folders.headI
      let all_under_root := file_paths.all (fun p =>
        let n := pyNormalize p
        if n = [] then true else (root ++ ['/']).isPrefixOf n || n == root)
      if all_under_root then some root else none
    else none

example : detect_root_folder [str "a/x.txt", str "a/y.txt"] = some (str "a") := by decide
example : detect_root_folder [str "x.txt", str "a/y.txt"] = none := by decide
example : detect_root_folder [] = none := by decide
example : detect_root_folder [str "project/src/main.py", str "project/README.md"]
    = some (str "project") := by decide

/-! ## Disk space checking (`validation.validate_disk_space`) -/

/-- Python `int()` on a rational: truncation toward zero. -/
def pyInt (q : ℚ) : ℤ := if 0 ≤ q then ⌊q⌋ else -⌊-q⌋

/-- The ancestor walk of `validate_disk_space`: starting from the destination
(as a component list, `[]` being the filesystem root), walk to the parent
while the current path does not exist, stopping at the root. -/
def findExisting (ex : List Str → Bool) (p : List Str) : List Str :=
  if ex p then p
  else if p = [] then p
  else findExisting ex p.dropLast
termination_by p.length
decreasing_by
  simp only [List.length_dropLast]
  cases p with
  | nil => simp_all
  | cons a l => simp

/-- `validation.validate_disk_space(dest, required_bytes, buffer)`: find the
first existing ancestor, query free space there (`none` models an `OSError`,
answered by the fail-open `(True, 0)`), and compare the free bytes against
`int(required_bytes * (1 + buffer))`.  The buffer fraction is given as an
exact ratio `bnum / bden` (the Python default `0.1` is `1 / 10`), and
`int(required_bytes * (1 + bnum/bden))` is computed as the exact floor
division `required_bytes * (bden + bnum) / bden`; see
`requiredWithBuffer_eq_floor` for the bridge to the rational reading. -/
def validate_disk_space (ex : List Str → Bool) (usage : List Str → Option ℕ)
    (dest : List Str) (required_bytes : ℕ) (bnum bden : ℕ) : Bool × ℕ :=
  let check_path := findExisting ex dest
  match usage check_path with
  | none => (true, 0)
  | some available =>
    let required_with_buffer := required_bytes * (bden + bnum) / bden
    if required_with_buffer ≤ available then (true, available)
    else (false, available)

example : validate_disk_space (fun _ => true) (fun _ => some 12) [] 10 1 10 = (true, 12) := by
  decide
example : validate_disk_space (fun _ => true) (fun _ => some 10) [] 10 1 10 = (false, 10) := by
  decide
example : validate_disk_space (fun _ => false) (fun _ => none) [str "a"] 10 1 10
    = (true, 0) := by decide

/-! ## Progress tracking (`progress.ProgressTracker`) -/

/-- `ProgressStats` (per-update snapshot; speeds in MB/s with 1 MB = 2^20
bytes, times in whole seconds). -/
structure ProgressStats where
  current_speed_mbps : ℚ
  average_speed_mbps : ℚ
  eta_seconds : ℤ
  elapsed_seconds : ℤ

/-- Internal state of `ProgressTracker` (timestamps as exact rationals). -/
structure ProgressTracker where
  start_time : Option ℚ
  samples : List (ℚ × ℤ)
  window_size : ℕ
  total_bytes : ℤ
  extracted_bytes : ℤ

/-- `lst[-k:]` in Python for `k ≥ 0`: the last `k` elements when `k ≥ 1`, and
the whole list when `k = 0` (because `lst[-0:] == lst[0:]`). -/
def pyLastSlice (l : List α) (k : ℕ) : List α :=
  if k = 0 then l else l.drop (l.length - k)

/-- The window trim `if len(samples) > window: samples = samples[-window:]`. -/
def trimmedSamples (window_size : ℕ) (samples0 : List (ℚ × ℤ)) : List (ℚ × ℤ) :=
  if window_size < samples0.length then pyLastSlice samples0 window_size else samples0

/-- Instantaneous speed from the two most recent retained samples. -/
def instantSpeed (samples : List (ℚ × ℤ)) : ℚ :=
  if 2 ≤ samples.length then
    let recent := samples.getLastD (0, 0)
    let previous := samples.dropLast.getLastD (0, 0)
    let time_diff := recent.1 - previous.1
    let bytes_diff := recent.2 - previous.2
    if 0 < time_diff then ((bytes_diff : ℚ) / time_diff) / (1024 * 1024) else 0
  else 0

/-- Windowed-average speed: delta of the first and last retained samples. -/
def windowAvgSpeed (samples : List (ℚ × ℤ)) : ℚ :=
  if 2 ≤ samples.length then
    let first := samples.headI
    let last := samples.getLastD (0, 0)
    let time_diff := last.1 - first.1
    let bytes_diff := last.2 - first.2
    if 0 < time_diff then ((bytes_diff : ℚ) / time_diff) / (1024 * 1024) else 0
  else 0

/-- `ProgressTracker.update(extracted_bytes)` at instant `now`: append the
sample, trim the window, and compute instantaneous speed (last two samples),
windowed-average speed (first and last retained samples), ETA and elapsed
time, all clamped non-negative. -/
def ProgressTracker.update (tr : ProgressTracker) (now : ℚ) (extracted : ℤ) :
    ProgressTracker × ProgressStats :=
  let samples := trimmedSamples tr.window_size (tr.samples ++ [(now, extracted)])
  let elapsed_seconds : ℤ := match tr.start_time with
    | some st => pyInt (now - st)
    | none => 0
  let current_speed_mbps : ℚ := instantSpeed samples
  let average_speed_mbps : ℚ := windowAvgSpeed samples
  let remaining_bytes := tr.total_bytes - extracted
  let eta_seconds : ℤ :=
    if 0 < average_speed_mbps ∧ 0 < remaining_bytes then
      pyInt ((remaining_bytes : ℚ) / (average_speed_mbps * 1024 * 1024))
    else 0
  ({ tr with samples := samples, extracted_bytes := extracted },
   { current_speed_mbps := max 0 current_speed_mbps
     average_speed_mbps := max 0 average_speed_mbps
     eta_seconds := max 0 eta_seconds
     elapsed_seconds := max 0 elapsed_seconds })

/-! ## Data model (`models.py`) -/

inductive TaskStatus where
  | queued | running | paused | completed | failed | cancelled
deriving DecidableEq, Repr

inductive ConflictResolution where
  | ask | overwrite | skip | rename
deriving DecidableEq, Repr

/-- `models.ArchiveFile`: one entry descriptor. -/
structure ArchiveFile where
  path : Str
  size : ℕ
  compressed_size : ℕ
  is_directory : Bool
  modified_time : Option (ℕ × ℕ × ℕ × ℕ × ℕ × ℕ) := none
  crc32 : Option ℕ := none
deriving DecidableEq, Repr

/-- `models.ArchiveInfo`: immutable archive snapshot. -/
structure ArchiveInfo where
  path : Str
  file_size : ℕ
  uncompressed_size : ℕ
  file_count : ℕ
  compression_method : Str := str "deflate"
  has_password : Bool := false
  root_folder : Option Str := none
  is_valid : Bool := true
  validation_errors : List Str := []
  files : List ArchiveFile := []
deriving DecidableEq, Repr

/-- `models.ExtractionTask`: the mutable unit of work.  `datetime` values are
opaque clock tokens (naturals). -/
structure ExtractionTask where
  task_id : Str
  archive_path : Str
  destination_path : Str
  status : TaskStatus := .queued
  conflict_resolution : ConflictResolution := .ask
  total_files : ℕ := 0
  extracted_files : ℕ := 0
  total_bytes : ℕ := 0
  extracted_bytes : ℕ := 0
  current_file : Option Str := none
  created_at : ℕ := 0
  started_at : Option ℕ := none
  completed_at : Option ℕ := none
  error_message : Option Str := none
  failed_files : List Str := []
  preserve_permissions : Bool := true
  preserve_timestamps : Bool := true
  create_root_folder : Bool := true
deriving DecidableEq, Repr

/-! ## The world an extraction runs in

The `zipfile`/OS layer is modelled by an explicit oracle: what the archive
file looks like, what opening it yields, which directories exist, how much
disk space is free, and the dynamic per-entry outcomes of the read/write
calls.  The model is single-threaded: the engine resets its cancellation and
pause flags on entry to `extract()` and nothing concurrently sets them, so
the cancel/pause branches of the loop are never taken. -/

/-- Outcome of the read/write block for one entry: success, an exception
caught by the per-entry `except (BadZipFile, OSError)` handler, or an
exception that escapes to the top-level handlers of `extract()` (for
example `RuntimeError` on an encrypted entry). -/
inductive EntryEvent where
  | ok
  | ioError
  | fatal (kind : ℕ) (msg : Str)
deriving DecidableEq, Repr

/-- Top-level exception categories of `extract()`'s handlers:
0 = `zipfile.BadZipFile`, 1 = `PermissionError`, 2 = other `OSError`,
anything else = generic `Exception`. -/
def fatalMsg (kind : ℕ) (msg : Str) : Str :=
  if kind = 0 then str "Corrupted archive: " ++ msg
  else if kind = 1 then str "Permission denied: " ++ msg
  else if kind = 2 then str "I/O error: " ++ msg
  else str "Unexpected error: " ++ msg

/-- One `zipfile.ZipInfo` entry, together with the run-time outcomes that the
OS oracle attaches to it (content read, parent-`mkdir` success, read/write
event). -/
structure ZipEntry where
  filename : Str
  is_dir : Bool
  file_size : ℕ
  compress_size : ℕ := 0
  compress_type : ℕ := 8
  crc : ℕ := 0
  date_time : ℕ × ℕ × ℕ × ℕ × ℕ × ℕ := (1980, 1, 1, 0, 0, 0)
  dtValid : Bool := true
  encrypted : Bool := false
  content : Str := []
  parentMkdirOk : Bool := true
  event : EntryEvent := .ok
deriving DecidableEq, Repr

/-- Result of `zipfile.ZipFile(path, "r")` plus `zf.testzip()`:
either entries with the name of the first corrupt one (if any), or a
`BadZipFile` / other error raised while reading the archive. -/
inductive ZipOpen where
  | ok (entries : List ZipEntry) (testzipBad : Option Str)
  | badZip (msg : Str)
  | oserror (msg : Str)
deriving DecidableEq, Repr

/-- The filesystem's regular files: full path string to contents. -/
abbrev FS := List (Str × Str)

def fsLookup : FS → Str → Option Str
  | [], _ => none
  | (q, c) :: rest, p => if q = p then some c else fsLookup rest p

/-- `Path(p).exists()` for regular files. -/
def fsExists (fs : FS) (p : Str) : Bool := (fsLookup fs p).isSome

/-- `Path(p).write_bytes(c)`: create or overwrite. -/
def fsWrite (fs : FS) (p c : Str) : FS := (p, c) :: fs

/-- The environment one `extract()` call runs in. -/
structure World where
  archiveExists : Bool
  archiveIsFile : Bool := true
  archiveSize : ℕ := 1
  isZipfile : Bool := true
  zipOpen : ZipOpen := .ok [] none
  dirExists : List Str → Bool := fun _ => true
  diskUsage : List Str → Option ℕ := fun _ => none
  mkdirDestOk : Bool := true
  mkdirBaseOk : Bool := true
  fs : FS := []
  nowTs : ℕ := 0
  timeMs : ℕ := 0

/-! ## Archive validation (`validation.validate_archive`, `get_archive_info`) -/

/-- `validation.validate_archive(path)`. -/
def validate_archive (w : World) (path : Str) : Bool × Option Str :=
  if w.archiveExists = false then (false, some (str "File does not exist: " ++ path))
  else if w.archiveIsFile = false then (false, some (str "Path is not a file: " ++ path))
  else if w.archiveSize = 0 then (false, some (str "File is empty"))
  else if w.isZipfile = false then (false, some (str "File is not a valid ZIP archive"))
  else match w.zipOpen with
    | .ok _ (some bad) => (false, some (str "Corrupted file in archive: " ++ bad))
    | .ok _ none => (true, none)
    | .badZip m => (false, some (str "Bad ZIP file: " ++ m))
    | .oserror m => (false, some (str "Error reading archive: " ++ m))

/-- zipfile compression-method names as in `_get_compression_method_name`. -/
def compressionMethodName (t : ℕ) : Str :=
  if t = 0 then str "stored"
  else if t = 8 then str "deflate"
  else if t = 12 then str "bzip2"
  else if t = 14 then str "lzma"
  else str "unknown"

/-- One `ArchiveFile` built from a `ZipInfo` entry (`modified_time` is kept
only when the DOS tuple is non-zero and `datetime(*t)` succeeds). -/
def toArchiveFile (e : ZipEntry) : ArchiveFile :=
  { path := e.filename
    size := e.file_size
    compressed_size := e.compress_size
    is_directory := e.is_dir
    modified_time :=
      if e.date_time ≠ (0, 0, 0, 0, 0, 0) ∧ e.dtValid then some e.date_time else none
    crc32 := some e.crc }

/-- `validation.get_archive_info(path)`: raises (`Except.error`) only when
the path does not exist; every read error afterwards lands in
`validation_errors` and `is_valid` is defined as their emptiness. -/
def get_archive_info (w : World) (path : Str) : Except Str ArchiveInfo :=
  if w.archiveExists = false then .error (str "Archive not found: " ++ path)
  else
    let data : List Str × List ArchiveFile × ℕ × Bool × Str :=
      match w.zipOpen with
      | .ok entries bad =>
        let has_password := entries.any (fun e => e.encrypted)
        let compression_method := match entries with
          | [] => str "unknown"
          | e :: _ => compressionMethodName e.compress_type
        let files := entries.map toArchiveFile
        let uncompressed_size := (entries.map (fun e => e.file_size)).sum
        let validation_errors := match bad with
          | some b => [str "Corrupted file: " ++ b]
          | none => []
        (validation_errors, files, uncompressed_size, has_password, compression_method)
      | .badZip m => ([str "Bad ZIP file: " ++ m], [], 0, false, str "unknown")
      | .oserror m => ([str "Error reading archive: " ++ m], [], 0, false, str "unknown")
    let validation_errors := data.1
    let files := data.2.1
    let uncompressed_size := data.2.2.1
    let has_password := data.2.2.2.1
    let compression_method := data.2.2.2.2
    let root_folder := detect_root_folder (files.map (fun f => f.path))
    .ok
      { path := path
        file_size := w.archiveSize
        uncompressed_size := uncompressed_size
        file_count := (files.filter (fun f => f.is_directory = false)).length
        compression_method := compression_method
        has_password := has_password
        root_folder := root_folder
        is_valid := validation_errors.isEmpty
        validation_errors := validation_errors
        files := files }

/-! ## Extraction engine (`extraction.ExtractionEngine`) -/

/-- The candidate name `"{stem} ({counter}){suffix}"` under `parent`. -/
def numberedName (parent stem suffix : Str) (n : ℕ) : Str :=
  pyJoin parent (stem ++ str " (" ++ natStr n ++ str ")" ++ suffix)

/-- The timestamp fallback name `"{stem}_{timestamp}{suffix}"` under
`parent`. -/
def fallbackName (parent stem suffix : Str) (timeMs : ℕ) : Str :=
  pyJoin parent (stem ++ ['_'] ++ natStr timeMs ++ suffix)

/-- The `while True` loop of `ExtractionEngine._get_unique_path`: try
`counter = 1, 2, 3, …`; after the counter passes 10000, return the
timestamp-based fallback name (without re-checking existence).  The loop is
written with a structural fuel kept equal to `10001 - counter`, so the
fuel-exhaustion branch is dead code: the cap fires at `counter = 10000`,
where the fuel is still `1`. -/
def uniqueLoop (ex : Str → Bool) (parent stem suffix : Str) (timeMs : ℕ) :
    ℕ → ℕ → Str
  | _, 0 => fallbackName parent stem suffix timeMs
  | counter, fuel + 1 =>
    let new_path := numberedName parent stem suffix counter
    if ex new_path = false then new_path
    else if 10000 < counter + 1 then fallbackName parent stem suffix timeMs
    else uniqueLoop ex parent stem suffix timeMs (counter + 1) fuel

/-- `ExtractionEngine._get_unique_path(path)` over an existence oracle `ex`
(`time.time() * 1000` is the opaque `timeMs`). -/
def getUniquePath (ex : Str → Bool) (timeMs : ℕ) (path : Str) : Str :=
  if ex path = false then path
  else uniqueLoop ex (pyParent path) (pyStem path) (pySuffix path) timeMs 1 10000

/-- `ExtractionEngine._resolve_conflict(path, resolution)` against the
current filesystem: `some` target to write, `none` to skip. -/
def resolveConflict (fs : FS) (timeMs : ℕ) (path : Str)
    (resolution : ConflictResolution) : Option Str :=
  match resolution with
  | .overwrite => some path
  | .skip => none
  | .rename => some (getUniquePath (fsExists fs) timeMs path)
  | .ask => none

/-- Mutable state threaded through the entry loop.  `callbacks` records the
task snapshot passed to the progress callback at each invocation;
`written` and `skippedC` are ghost logs of the entries written to disk and
of those skipped by conflict resolution. -/
structure LoopState where
  task : ExtractionTask
  fs : FS
  callbacks : List ExtractionTask
  written : List ZipEntry
  skippedC : List ZipEntry

/-- The body of the `for member in members` loop of
`ExtractionEngine.extract` for one entry (cancellation and pause flags are
never set in this single-threaded model).  `Except.error` carries a fatal
exception propagating to the top-level handlers. -/
def processMember (extraction_base : Str) (timeMs : ℕ) (st : LoopState)
    (m : ZipEntry) : Except (ℕ × Str × LoopState) LoopState :=
  if is_safe_path extraction_base m.filename = false then
    if m.is_dir = false then
      .ok { st with task := { st.task with
        failed_files := st.task.failed_files ++ [m.filename] } }
    else .ok st
  else if m.is_dir then
    -- directory entry: best-effort mkdir, errors suppressed, not tracked
    .ok st
  else
    let st := { st with task := { st.task with current_file := some m.filename } }
    let target_path := pyJoin extraction_base m.filename
    let resolved : Option Str :=
      if fsExists st.fs target_path then
        resolveConflict st.fs timeMs target_path st.task.conflict_resolution
      else some target_path
    match resolved with
    | none =>
      -- skip this file: still advance extracted_bytes and fire the callback
      let t := { st.task with extracted_bytes := st.task.extracted_bytes + m.file_size }
      .ok { st with task := t, callbacks := st.callbacks ++ [t],
                    skippedC := st.skippedC ++ [m] }
    | some target =>
      if m.parentMkdirOk = false then
        .ok { st with task := { st.task with
          failed_files := st.task.failed_files ++ [m.filename] } }
      else
        match m.event with
        | .fatal kind msg => .error (kind, msg, st)
        | .ioError =>
          let t := { st.task with failed_files := st.task.failed_files ++ [m.filename] }
          .ok { st with task := t, callbacks := st.callbacks ++ [t] }
        | .ok =>
          -- timestamp/permission preservation is best-effort and touches
          -- nothing observable in this model
          let t := { st.task with
            extracted_files := st.task.extracted_files + 1
            extracted_bytes := st.task.extracted_bytes + m.file_size }
          .ok { st with fs := fsWrite st.fs target m.content, task := t,
                        callbacks := st.callbacks ++ [t], written := st.written ++ [m] }

/-- The entry loop: fold `processMember` over the central directory,
aborting on a fatal exception. -/
def runLoop (extraction_base : Str) (timeMs : ℕ) :
    LoopState → List ZipEntry → Except (ℕ × Str × LoopState) LoopState
  | st, [] => .ok st
  | st, m :: rest =>
    match processMember extraction_base timeMs st m with
    | .error e => .error e
    | .ok st' => runLoop extraction_base timeMs st' rest

/-- Observable outcome of one `extract()` call. -/
structure ExtractResult where
  task : ExtractionTask
  fs : FS
  callbacks : List ExtractionTask
  written : List ZipEntry
  skippedC : List ZipEntry
  result : Bool
deriving Repr

/-- A failing return: task marked failed with a message, `False` returned. -/
def mkFail (t : ExtractionTask) (msg : Str) (fs : FS) : ExtractResult :=
  { task := { t with status := .failed, error_message := some msg }
    fs := fs, callbacks := [], written := [], skippedC := [], result := false }

/-- Comma-join of validation error strings. -/
def joinComma : List Str → Str
  | [] => []
  | [s] => s
  | s :: rest => s ++ str ", " ++ joinComma rest

/-- `ExtractionEngine.extract(task, progress_callback)`.  The model is a
total function: by construction no exception escapes; every failure path
yields `mkFail`.  Steps follow the source: validate, inspect, disk-space
check, destination mkdir, mark running, optional root-folder mkdir, entry
loop, completion; top-level handlers turn a fatal entry event into a
categorized failure message. -/
def extract (w : World) (t : ExtractionTask) : ExtractResult :=
  let v := validate_archive w t.archive_path
  if v.1 = false then
    mkFail t (str "Archive validation failed: " ++ v.2.getD []) w.fs
  else
    match get_archive_info w t.archive_path with
    | .error e =>
      -- FileNotFoundError is an OSError: caught by the top-level handler
      mkFail t (str "I/O error: " ++ e) w.fs
    | .ok archive_info =>
      if archive_info.is_valid = false then
        mkFail t (str "Invalid archive: " ++ joinComma archive_info.validation_errors) w.fs
      else
        let t := { t with total_files := archive_info.file_count,
                          total_bytes := archive_info.uncompressed_size }
        let space := validate_disk_space w.dirExists w.diskUsage
          (pathParts t.destination_path) t.total_bytes 1 10
        if space.1 = false then
          mkFail t (str "Insufficient disk space. Required: " ++ natStr t.total_bytes
            ++ str " bytes, Available: " ++ natStr space.2 ++ str " bytes") w.fs
        else if w.mkdirDestOk = false then
          mkFail t (str "Failed to create destination directory: mkdir failed") w.fs
        else
          let t := { t with status := .running, started_at := some w.nowTs }
          if t.create_root_folder ∧ w.mkdirBaseOk = false then
            -- OSError from extraction_base.mkdir hits the top-level handler
            mkFail t (str "I/O error: mkdir failed") w.fs
          else
            let extraction_base :=
              if t.create_root_folder then pyJoin t.destination_path (pyStem t.archive_path)
              else t.destination_path
            match w.zipOpen with
            | .ok members _ =>
              match runLoop extraction_base w.timeMs
                  { task := t, fs := w.fs, callbacks := [], written := [], skippedC := [] }
                  members with
              | .ok st =>
                { task := { st.task with
                    status := .completed
                    completed_at := some w.nowTs
                    current_file := none }
                  fs := st.fs
                  callbacks := st.callbacks
                  written := st.written
                  skippedC := st.skippedC
                  result := true }
              | .error (kind, msg, st) =>
                { task := { st.task with
                    status := .failed
                    error_message := some (fatalMsg kind msg) }
                  fs := st.fs
                  callbacks := st.callbacks
                  written := st.written
                  skippedC := st.skippedC
                  result := false }
            | .badZip m => mkFail t (str "Corrupted archive: " ++ m) w.fs
            | .oserror m => mkFail t (str "Error reading archive: " ++ m) w.fs

/-! ## C10: `get_archive_info` raises only on a missing path -/

/-- C10: `get_archive_info` raises (returns `Except.error`) exactly when the
archive path does not exist; for every existing path — valid ZIP or not —
it returns an `ArchiveInfo`, and the returned record satisfies
`is_valid = true` iff its `validation_errors` list is empty. -/
theorem get_archive_info_total (w : World) (path : Str) :
    ((∃ e, get_archive_info w path = .error e) ↔ w.archiveExists = false) ∧
    (∀ info, get_archive_info w path = .ok info →
      (info.is_valid = true ↔ info.validation_errors = [])) := by
  constructor
  · constructor
    · rintro ⟨e, he⟩
      cases hx : w.archiveExists with
      | false => rfl
      | true => simp [get_archive_info, hx] at he
    · intro hx
      exact ⟨str "Archive not found: " ++ path, by simp [get_archive_info, hx]⟩
  · intro info hinfo
    have hx : w.archiveExists ≠ false := by
      intro hx
      simp [get_archive_info, hx] at hinfo
    simp only [get_archive_info, if_neg hx, Except.ok.injEq] at hinfo
    subst hinfo
    simp [List.isEmpty_iff]

/-- A well-formed world holding an empty, valid archive. -/
def W10 : World := { archiveExists := true }

/-- The inspection result for `W10`. -/
def info10 : ArchiveInfo :=
  { path := str "x.zip", file_size := 1, uncompressed_size := 0, file_count := 0
    compression_method := str "unknown", has_password := false, root_folder := none
    is_valid := true, validation_errors := [], files := [] }

/-- Witness for C10 at a concrete world. -/
theorem get_archive_info_total_witness :
    get_archive_info W10 (str "x.zip") = Except.ok info10 ∧
    (info10.is_valid = true ↔ info10.validation_errors = []) :=
  ⟨rfl, (get_archive_info_total W10 (str "x.zip")).2 info10 rfl⟩

/-! ## C7: `validate_disk_space` -/

/-- The ancestor walk returns a prefix of the destination that exists (or the
root), and every strictly longer prefix of the destination fails the
existence test — i.e. it is the first existing ancestor, walking upward. -/
theorem findExisting_spec (ex : List Str → Bool) (p : List Str) :
    (findExisting ex p).length ≤ p.length ∧
    findExisting ex p = p.take (findExisting ex p).length ∧
    (ex (findExisting ex p) = true ∨ findExisting ex p = []) ∧
    (∀ k, (findExisting ex p).length < k → k ≤ p.length → ex (p.take k) = false) := by
  induction p using List.reverseRecOn with
  | nil =>
    have hfe : findExisting ex [] = [] := by
      unfold findExisting
      simp
    rw [hfe]
    refine ⟨le_rfl, by simp, Or.inr rfl, ?_⟩
    intro k h1 h2
    exact absurd h2 (by simp at h1 ⊢; omega)
  | append_singleton as a ih =>
    rcases h : ex (as ++ [a]) with _ | _
    · have hfe : findExisting ex (as ++ [a]) = findExisting ex as := by
        conv_lhs => unfold findExisting
        rw [if_neg (by simp [h]), if_neg (by simp), List.dropLast_concat]
      rw [hfe]
      obtain ⟨ih1, ih2, ih3, ih4⟩ := ih
      refine ⟨?_, ?_, ih3, ?_⟩
      · simp only [List.length_append]
        omega
      · rw [List.take_append_of_le_length ih1]
        exact ih2
      · intro k h1 h2
        simp only [List.length_append] at h2
        rcases Nat.lt_or_ge k (as.length + 1) with hk | hk
        · have hk' : k ≤ as.length := by omega
          rw [List.take_append_of_le_length hk']
          exact ih4 k h1 hk'
        · have hke : k = as.length + 1 := by simp at h2; omega
          subst hke
          have ht : (as ++ [a]).take (as.length + 1) = as ++ [a] := by
            have h0 := List.take_length (as ++ [a])
            simp at h0
            simp [h0]
          rw [ht]
          exact h
    · have hfe : findExisting ex (as ++ [a]) = as ++ [a] := by
        conv_lhs => unfold findExisting
        rw [if_pos h]
      rw [hfe]
      refine ⟨le_rfl, by simp, Or.inl h, ?_⟩
      intro k h1 h2
      exact absurd h2 (by omega)

/-- The code's integer threshold equals the truncated rational
`int(required_bytes * (1 + bnum/bden))`. -/
theorem requiredWithBuffer_eq (required_bytes bnum bden : ℕ) (hb : 0 < bden) :
    ((required_bytes * (bden + bnum) / bden : ℕ) : ℤ) =
      pyInt ((required_bytes : ℚ) * (1 + (bnum : ℚ) / bden)) := by
  have hd : (bden : ℚ) ≠ 0 := by exact_mod_cast hb.ne'
  have hq : (required_bytes : ℚ) * (1 + (bnum : ℚ) / bden)
      = ((required_bytes * (bden + bnum) : ℕ) : ℚ) / (bden : ℚ) := by
    push_cast
    field_simp
  have hnn : (0 : ℚ) ≤ (required_bytes : ℚ) * (1 + (bnum : ℚ) / bden) := by
    positivity
  rw [pyInt, if_pos hnn, hq, Rat.floor_natCast_div_natCast]
  exact Int.natCast_div _ _

/-- C7 (amended): `validate_disk_space` walks up to the first existing
ancestor of the destination; a failing free-space query yields the fail-open
`(true, 0)`; otherwise `has_space` is true exactly when the free bytes are at
least the integer-truncated threshold `int(required_bytes × (1 + buffer))`
(the claim's un-truncated rational threshold is wrong; see the
counterexample), and the reported available bytes are the queried value. -/
theorem validate_disk_space_correct (ex : List Str → Bool) (usage : List Str → Option ℕ)
    (dest : List Str) (required_bytes bnum bden : ℕ) (hb : 0 < bden) :
    (findExisting ex dest = dest.take (findExisting ex dest).length ∧
      (ex (findExisting ex dest) = true ∨ findExisting ex dest = []) ∧
      (∀ k, (findExisting ex dest).length < k → k ≤ dest.length →
        ex (dest.take k) = false)) ∧
    (usage (findExisting ex dest) = none →
      validate_disk_space ex usage dest required_bytes bnum bden = (true, 0)) ∧
    (∀ free, usage (findExisting ex dest) = some free →
      ((validate_disk_space ex usage dest required_bytes bnum bden).1 = true ↔
        required_bytes * (bden + bnum) / bden ≤ free) ∧
      (validate_disk_space ex usage dest required_bytes bnum bden).2 = free) ∧
    ((required_bytes * (bden + bnum) / bden : ℤ) =
      pyInt ((required_bytes : ℚ) * (1 + (bnum : ℚ) / bden))) := by
  obtain ⟨h1, h2, h3, h4⟩ := findExisting_spec ex dest
  refine ⟨⟨h2, h3, h4⟩, ?_, ?_, requiredWithBuffer_eq required_bytes bnum bden hb⟩
  · intro hnone
    simp [validate_disk_space, hnone]
  · intro free hfree
    have hv : validate_disk_space ex usage dest required_bytes bnum bden
        = if required_bytes * (bden + bnum) / bden ≤ free then (true, free)
          else (false, free) := by
      simp only [validate_disk_space, hfree]
    by_cases hle : required_bytes * (bden + bnum) / bden ≤ free
    · rw [hv, if_pos hle]
      exact ⟨⟨fun _ => hle, fun _ => rfl⟩, rfl⟩
    · rw [hv, if_neg hle]
      exact ⟨⟨fun hfalse => absurd hfalse (by simp), fun hc => absurd hc hle⟩, rfl⟩

/-- C7 counterexample for the claim as stated: with 5 bytes free, 5 bytes
required and the default 0.1 buffer, the code reports `has_space = true`
although `5 < 5 × 1.1`, because the threshold is truncated to an integer
before the comparison. -/
theorem validate_disk_space_claim_counterexample :
    validate_disk_space (fun _ => true) (fun _ => some 5) [] 5 1 10 = (true, 5) ∧
    ¬ ((5 : ℚ) * (1 + (1 : ℚ) / 10) ≤ (5 : ℚ)) := by
  constructor
  · decide
  · norm_num

/-- Witness for C7 at concrete inputs. -/
theorem validate_disk_space_correct_witness :
    (0 : ℕ) < 10 ∧
    (validate_disk_space (fun _ => true) (fun _ => some 100) [] 10 1 10).1 = true ∧
    (validate_disk_space (fun _ => true) (fun _ => some 100) [] 10 1 10).2 = 100 := by
  have h := validate_disk_space_correct (fun _ => true) (fun _ => some 100) [] 10 1 10
    (by decide)
  have h2 := h.2.2.1 100 rfl
  exact ⟨by decide, h2.1.mpr (by decide), h2.2⟩

/-! ## C5: conflict-rename uniqueness (`_get_unique_path`) -/

/-- Behaviour of the rename loop from any counter, with fuel maintained as
`10001 - counter`: either it returns the first free numbered name at or after
the current counter, or every numbered name up to the 10000 cap exists and it
returns the timestamp fallback (without checking its existence). -/
theorem uniqueLoop_spec (ex : Str → Bool) (parent stem suffix : Str) (timeMs : ℕ) :
    ∀ fuel counter, counter + fuel = 10001 → 1 ≤ fuel →
      (∃ n, counter ≤ n ∧ n ≤ 10000 ∧
        ex (numberedName parent stem suffix n) = false ∧
        (∀ m, counter ≤ m → m < n → ex (numberedName parent stem suffix m) = true) ∧
        uniqueLoop ex parent stem suffix timeMs counter fuel
          = numberedName parent stem suffix n)
      ∨ ((∀ m, counter ≤ m → m ≤ 10000 → ex (numberedName parent stem suffix m) = true) ∧
        uniqueLoop ex parent stem suffix timeMs counter fuel
          = fallbackName parent stem suffix timeMs) := by
  intro fuel
  induction fuel with
  | zero =>
    intro counter h1 h2
    exact absurd h2 (by omega)
  | succ f ihf =>
    intro counter hsum _
    rcases hx : ex (numberedName parent stem suffix counter) with _ | _
    · left
      refine ⟨counter, le_rfl, by omega, hx, fun m hm1 hm2 => absurd hm2 (by omega), ?_⟩
      simp [uniqueLoop, hx]
    · by_cases hcap : 10000 < counter + 1
      · right
        constructor
        · intro m hm1 hm2
          have hme : m = counter := by omega
          rw [hme]
          exact hx
        · simp [uniqueLoop, hx, hcap]
      · have hf1 : 1 ≤ f := by omega
        have hsum' : (counter + 1) + f = 10001 := by omega
        have hrec : uniqueLoop ex parent stem suffix timeMs counter (f + 1)
            = uniqueLoop ex parent stem suffix timeMs (counter + 1) f := by
          simp [uniqueLoop, hx, hcap]
        rcases ihf (counter + 1) hsum' hf1 with ⟨n, hn1, hn2, hn3, hn4, hn5⟩ | ⟨hall, heq⟩
        · left
          refine ⟨n, by omega, hn2, hn3, ?_, by rw [hrec]; exact hn5⟩
          intro m hm1 hm2
          rcases eq_or_lt_of_le hm1 with he | hlt
          · rw [← he]
            exact hx
          · exact hn4 m (by omega) hm2
        · right
          refine ⟨?_, by rw [hrec]; exact heq⟩
          intro m hm1 hm2
          by_cases hme : m = counter
          · rw [hme]
            exact hx
          · exact hall m (by omega) hm2

/-- The specification of `_get_unique_path` on a conflicting path: either the
first free numbered name `"{stem} (N){suffix}"` with `1 ≤ N ≤ 10000` is
returned (and it does not exist), or all 10000 numbered names exist and the
timestamp fallback is returned — the fallback is NOT checked for
existence. -/
def UniquePathSpec (ex : Str → Bool) (timeMs : ℕ) (path : Str) : Prop :=
  (∃ n, 1 ≤ n ∧ n ≤ 10000 ∧
    ex (numberedName (pyParent path) (pyStem path) (pySuffix path) n) = false ∧
    (∀ m, 1 ≤ m → m < n →
      ex (numberedName (pyParent path) (pyStem path) (pySuffix path) m) = true) ∧
    getUniquePath ex timeMs path
      = numberedName (pyParent path) (pyStem path) (pySuffix path) n ∧
    ex (getUniquePath ex timeMs path) = false)
  ∨ ((∀ m, 1 ≤ m → m ≤ 10000 →
      ex (numberedName (pyParent path) (pyStem path) (pySuffix path) m) = true) ∧
    getUniquePath ex timeMs path
      = fallbackName (pyParent path) (pyStem path) (pySuffix path) timeMs)

/-- C5 (amended): under the Rename policy, for every conflicting path
`_get_unique_path` returns the first non-existing `"{stem} (N){suffix}"`
with `N = 1, 2, …` up to the 10000-attempt cap — that result never exists —
and once the cap is passed it returns the timestamp fallback, which is
returned without an existence check (so "the returned path never already
exists on disk" does not hold in the fallback case; see the
counterexample). -/
theorem getUniquePath_correct (ex : Str → Bool) (timeMs : ℕ) (path : Str)
    (hex : ex path = true) : UniquePathSpec ex timeMs path := by
  have hg : getUniquePath ex timeMs path
      = uniqueLoop ex (pyParent path) (pyStem path) (pySuffix path) timeMs 1 10000 := by
    simp [getUniquePath, hex]
  rcases uniqueLoop_spec ex (pyParent path) (pyStem path) (pySuffix path) timeMs 10000 1
      (by omega) (by omega) with ⟨n, hn1, hn2, hn3, hn4, hn5⟩ | ⟨hall, heq⟩
  · left
    exact ⟨n, hn1, hn2, hn3, hn4, by rw [hg]; exact hn5, by rw [hg, hn5]; exact hn3⟩
  · right
    exact ⟨hall, by rw [hg]; exact heq⟩

/-- C5 counterexample for the claim as stated: on a filesystem where every
path exists, the loop exhausts its 10000 attempts and returns the timestamp
fallback name, which already exists — contradicting "in all cases (for every
filesystem state) the returned path never already exists on disk". -/
theorem getUniquePath_claim_counterexample :
    getUniquePath (fun _ => true) 99 (str "/tmp/file.txt")
      = fallbackName (str "/tmp") (str "file") (str ".txt") 99 ∧
    (fun _ : Str => true) (getUniquePath (fun _ => true) 99 (str "/tmp/file.txt")) = true := by
  constructor
  · have hg : getUniquePath (fun _ => true) 99 (str "/tmp/file.txt")
        = uniqueLoop (fun _ => true) (pyParent (str "/tmp/file.txt"))
            (pyStem (str "/tmp/file.txt")) (pySuffix (str "/tmp/file.txt")) 99 1 10000 := by
      simp [getUniquePath]
    rcases uniqueLoop_spec (fun _ => true) (pyParent (str "/tmp/file.txt"))
        (pyStem (str "/tmp/file.txt")) (pySuffix (str "/tmp/file.txt")) 99 10000 1
        (by omega) (by omega) with ⟨n, _, _, h3, _⟩ | ⟨_, heq⟩
    · exact absurd h3 (by simp)
    · rw [hg, heq]
      decide
  · rfl

/-- The filesystem of the spec's rename example: `file.txt`, `file (1).txt`
and `file (2).txt` exist under `/d`. -/
def exThree : Str → Bool := fun s =>
  [str "/d/file.txt", str "/d/file (1).txt", str "/d/file (2).txt"].contains s

/-- Witness for C5: on the spec's example filesystem the conflict on
`file.txt` resolves to `file (3).txt`. -/
theorem getUniquePath_correct_witness :
    exThree (str "/d/file.txt") = true ∧
    UniquePathSpec exThree 0 (str "/d/file.txt") ∧
    getUniquePath exThree 0 (str "/d/file.txt") = str "/d/file (3).txt" :=
  ⟨by decide, getUniquePath_correct exThree 0 (str "/d/file.txt") (by decide), by decide⟩

/-! ## C8: `ProgressTracker.update` -/

/-- `int()` of a non-negative rational is non-negative. -/
theorem pyInt_nonneg {q : ℚ} (h : 0 ≤ q) : 0 ≤ pyInt q := by
  rw [pyInt, if_pos h]
  exact Int.floor_nonneg.mpr h

/-- C8 (amended): every `update` keeps at most `window_size` samples provided
the configured capacity is at least 1 (a capacity of 0 never trims, because
`samples[-0:]` is the whole list; see the counterexample); the retained
window is a suffix of the appended sample list (oldest evicted first);
instantaneous speed is the clamped two-most-recent-samples delta and is zero
for fewer than two samples or a non-positive time delta; ETA is the
truncated `remaining / average-speed` and zero when the average speed or the
remaining bytes are non-positive; and all returned numeric fields are
non-negative. -/
theorem progress_update_correct (tr : ProgressTracker) (now : ℚ) (b : ℤ) :
    (1 ≤ tr.window_size → ((tr.update now b).1.samples).length ≤ tr.window_size) ∧
    ((tr.update now b).1.samples) <:+ (tr.samples ++ [(now, b)]) ∧
    (((tr.update now b).1.samples).length < 2 →
      (tr.update now b).2.current_speed_mbps = 0) ∧
    (2 ≤ ((tr.update now b).1.samples).length →
      (((tr.update now b).1.samples).getLastD (0, 0)).1
          - (((tr.update now b).1.samples).dropLast.getLastD (0, 0)).1 ≤ 0 →
      (tr.update now b).2.current_speed_mbps = 0) ∧
    (2 ≤ ((tr.update now b).1.samples).length →
      0 < (((tr.update now b).1.samples).getLastD (0, 0)).1
          - (((tr.update now b).1.samples).dropLast.getLastD (0, 0)).1 →
      (tr.update now b).2.current_speed_mbps
        = max 0 ((((((tr.update now b).1.samples).getLastD (0, 0)).2
            - (((tr.update now b).1.samples).dropLast.getLastD (0, 0)).2 : ℤ) : ℚ)
          / ((((tr.update now b).1.samples).getLastD (0, 0)).1
            - (((tr.update now b).1.samples).dropLast.getLastD (0, 0)).1)
          / (1024 * 1024))) ∧
    ((tr.update now b).2.average_speed_mbps ≤ 0 ∨ tr.total_bytes - b ≤ 0 →
      (tr.update now b).2.eta_seconds = 0) ∧
    (0 < (tr.update now b).2.average_speed_mbps → 0 < tr.total_bytes - b →
      (tr.update now b).2.eta_seconds
        = pyInt (((tr.total_bytes - b : ℤ) : ℚ)
            / ((tr.update now b).2.average_speed_mbps * 1024 * 1024))) ∧
    (0 ≤ (tr.update now b).2.current_speed_mbps ∧
     0 ≤ (tr.update now b).2.average_speed_mbps ∧
     0 ≤ (tr.update now b).2.eta_seconds ∧
     0 ≤ (tr.update now b).2.elapsed_seconds) := by
  have hsamp : (tr.update now b).1.samples
      = trimmedSamples tr.window_size (tr.samples ++ [(now, b)]) := rfl
  have hcur : (tr.update now b).2.current_speed_mbps
      = max 0 (instantSpeed (trimmedSamples tr.window_size (tr.samples ++ [(now, b)]))) := rfl
  have havg : (tr.update now b).2.average_speed_mbps
      = max 0 (windowAvgSpeed (trimmedSamples tr.window_size (tr.samples ++ [(now, b)]))) := rfl
  set samples := trimmedSamples tr.window_size (tr.samples ++ [(now, b)]) with hs
  have heta : (tr.update now b).2.eta_seconds
      = max 0 (if 0 < windowAvgSpeed samples ∧ 0 < tr.total_bytes - b then
          pyInt (((tr.total_bytes - b : ℤ) : ℚ) / (windowAvgSpeed samples * 1024 * 1024))
        else 0) := rfl
  refine ⟨?_, ?_, ?_, ?_, ?_, ?_, ?_, ?_, ?_, ?_, ?_⟩
  · -- window bound for capacity ≥ 1
    intro hw
    rw [hsamp, hs, trimmedSamples]
    split
    · rename_i hlt
      rw [pyLastSlice, if_neg (by omega), List.length_drop]
      omega
    · rename_i hlt
      omega
  · -- suffix of the appended list
    rw [hsamp, hs, trimmedSamples]
    split
    · rw [pyLastSlice]
      split
      · exact List.suffix_refl _
      · exact List.drop_suffix _ _
    · exact List.suffix_refl _
  · -- fewer than two samples: zero instantaneous speed
    intro hlen
    rw [hsamp] at hlen
    rw [hcur, instantSpeed, if_neg (by omega)]
    simp
  · -- non-positive time delta: zero instantaneous speed
    intro hlen htd
    rw [hsamp] at hlen htd
    rw [hcur, instantSpeed, if_pos hlen, if_neg (by exact not_lt.mpr htd)]
    simp
  · -- positive time delta: the clamped two-sample delta formula
    intro hlen htd
    rw [hsamp] at hlen htd
    rw [hsamp, hcur, instantSpeed, if_pos hlen, if_pos htd]
  · -- ETA is zero when the average speed or the remaining bytes are ≤ 0
    intro hor
    rw [heta]
    rcases hor with havg0 | hrem
    · rw [havg] at havg0
      have hle : windowAvgSpeed samples ≤ 0 := by
        by_contra h
        push_neg at h
        rw [max_eq_right h.le] at havg0
        exact absurd havg0 (not_le.mpr h)
      rw [if_neg (by intro hc; exact absurd hc.1 (not_lt.mpr hle))]
      simp
    · rw [if_neg (by intro hc; exact absurd hc.2 (not_lt.mpr hrem))]
      simp
  · -- positive average and remaining: the truncated quotient
    intro havgpos hrem
    rw [havg] at havgpos
    have hraw : 0 < windowAvgSpeed samples := by
      by_contra h
      rw [max_eq_left (not_lt.mp h)] at havgpos
      exact lt_irrefl 0 havgpos
    rw [heta, havg, max_eq_right hraw.le, if_pos ⟨hraw, hrem⟩]
    have hnn : 0 ≤ ((tr.total_bytes - b : ℤ) : ℚ) / (windowAvgSpeed samples * 1024 * 1024) := by
      apply div_nonneg
      · exact_mod_cast hrem.le
      · positivity
    rw [max_eq_right (pyInt_nonneg hnn)]
  · exact hcur ▸ le_max_left 0 _
  · exact havg ▸ le_max_left 0 _
  · exact heta ▸ le_max_left 0 _
  · have hel : (tr.update now b).2.elapsed_seconds
        = max 0 (match tr.start_time with
            | some st => pyInt (now - st)
            | none => 0) := rfl
    rw [hel]
    exact le_max_left 0 _

/-- A tracker constructed with `window_size = 0`. -/
def trZero : ProgressTracker :=
  { start_time := none, samples := [], window_size := 0, total_bytes := 0
    extracted_bytes := 0 }

/-- C8 counterexample for the claim as stated: with a configured capacity of
0 the trim `samples[-0:]` keeps the whole list, so after one update the
window holds 1 > 0 samples — the window can exceed the configured
capacity. -/
theorem progress_update_claim_counterexample :
    trZero.window_size = 0 ∧ ((trZero.update 1 5).1.samples).length = 1 := by
  constructor
  · rfl
  · rfl

/-- Witness for C8 at a concrete tracker with capacity 1. -/
theorem progress_update_correct_witness :
    (1 : ℕ) ≤ ({ trZero with window_size := 1 } : ProgressTracker).window_size ∧
    ((({ trZero with window_size := 1 } : ProgressTracker).update 1 5).1.samples).length
      ≤ ({ trZero with window_size := 1 } : ProgressTracker).window_size :=
  ⟨by decide,
   (progress_update_correct { trZero with window_size := 1 } 1 5).1 (by decide)⟩


/-! ## C1: `is_safe_path` -/

theorem cons_headI_tail {l : List Str} (h : l ≠ []) : l.headI :: l.tail = l := by
  cases l with
  | nil => exact absurd rfl h
  | cons a t => rfl

theorem headI_append {l m : List Str} (h : l ≠ []) : (l ++ m).headI = l.headI := by
  cases l with
  | nil => exact absurd rfl h
  | cons a t => rfl

theorem tail_append_left {l m : List Str} (h : l ≠ []) : (l ++ m).tail = l.tail ++ m := by
  cases l with
  | nil => exact absurd rfl h
  | cons a t => rfl

/-- Splitting the separator-normalised string refines the raw split: each raw
segment is further split at its (former) backslashes. -/
theorem pySplit_normSeps (t : Str) :
    pySplit (normSeps t) = (pySplit t).flatMap (fun s => pySplit (normSeps s)) := by
  induction t with
  | nil => rfl
  | cons c rest ih =>
    have hps := pySplit_ne_nil rest
    have hflat : (pySplit rest).flatMap (fun s => pySplit (normSeps s))
        = pySplit (normSeps (pySplit rest).headI)
          ++ ((pySplit rest).tail).flatMap (fun s => pySplit (normSeps s)) := by
      conv_lhs => rw [← cons_headI_tail hps]
      rw [List.flatMap_cons]
    have hgne : pySplit (normSeps (pySplit rest).headI) ≠ [] := pySplit_ne_nil _
    by_cases hsl : c = '/'
    · subst hsl
      have hlhs : pySplit (normSeps ('/' :: rest)) = [] :: pySplit (normSeps rest) := by
        simp [normSeps, pySplit]
      have hrhs : pySplit ('/' :: rest) = [] :: pySplit rest := by
        simp [pySplit]
      rw [hlhs, hrhs, List.flatMap_cons, ih]
      rfl
    · by_cases hbs : c = '\\'
      · subst hbs
        have hlhs : pySplit (normSeps ('\\' :: rest)) = [] :: pySplit (normSeps rest) := by
          simp [normSeps, pySplit]
        have hrhs : pySplit ('\\' :: rest)
            = ('\\' :: (pySplit rest).headI) :: (pySplit rest).tail := by
          simp [pySplit, hsl]
        rw [hlhs, hrhs, List.flatMap_cons, ih, hflat]
        have hseg : pySplit (normSeps ('\\' :: (pySplit rest).headI))
            = [] :: pySplit (normSeps (pySplit rest).headI) := by
          simp [normSeps, pySplit]
        rw [hseg]
        rfl
      · have hnc : (if c = '\\' then '/' else c) = c := if_neg hbs
        have hlhs : pySplit (normSeps (c :: rest))
            = (c :: (pySplit (normSeps rest)).headI) :: (pySplit (normSeps rest)).tail := by
          simp only [normSeps, List.map_cons, hnc, pySplit]
          rw [if_neg hsl]
        have hrhs : pySplit (c :: rest)
            = (c :: (pySplit rest).headI) :: (pySplit rest).tail := by
          simp only [pySplit]
          rw [if_neg hsl]
        rw [hlhs, hrhs, List.flatMap_cons, ih, hflat]
        have hseg : pySplit (normSeps (c :: (pySplit rest).headI))
            = (c :: (pySplit (normSeps (pySplit rest).headI)).headI)
              :: (pySplit (normSeps (pySplit rest).headI)).tail := by
          simp only [normSeps, List.map_cons, hnc, pySplit]
          rw [if_neg hsl]
        rw [hseg, headI_append hgne, tail_append_left hgne]
        rw [List.cons_append]

/-- A `".."` segment of the raw split survives separator normalisation. -/
theorem dotdot_mem_normSeps {t : Str} (h : ['.', '.'] ∈ pySplit t) :
    ['.', '.'] ∈ pySplit (normSeps t) := by
  rw [pySplit_normSeps]
  exact List.mem_flatMap.mpr ⟨['.', '.'], h, by decide⟩

/-- Resolving segments without `".."` never leaves the stack: it appends the
non-trivial segments. -/
theorem foldl_resolveStep_no_dotdot (ys : List Str) (hys : ∀ s ∈ ys, s ≠ ['.', '.']) :
    ∀ init, ys.foldl resolveStep init
      = init ++ ys.filter (fun s => !(decide (s = [] ∨ s = ['.']))) := by
  induction ys with
  | nil => intro init; simp
  | cons s ys ih =>
    intro init
    have hs : s ≠ ['.', '.'] := hys s (by simp)
    have hys' : ∀ x ∈ ys, x ≠ ['.', '.'] := fun x hx => hys x (by simp [hx])
    by_cases htriv : s = [] ∨ s = ['.']
    · rw [List.foldl_cons, resolveStep, if_pos htriv, ih hys',
        List.filter_cons_of_neg (by simp [htriv])]
    · rw [List.foldl_cons, resolveStep, if_neg htriv, if_neg hs, ih hys',
        List.filter_cons_of_pos (by simp [htriv]), List.append_assoc]
      rfl

theorem commonPath_self_append (l m : List Str) : commonPath l (l ++ m) = l := by
  induction l with
  | nil => rfl
  | cons x xs ih =>
    simp [commonPath, ih]

/-- C1 (amended): `is_safe_path` rejects absolute targets; rejects any target
with a `".."` segment after separator normalisation — even one that would
resolve strictly under the root (see the counterexample) — and accepts every
relative target without such a segment, whose resolution is then an
extension of the resolved base, i.e. it stays under the root. -/
theorem is_safe_path_correct (base_path target_path : Str) :
    (isAbsolute target_path = true → is_safe_path base_path target_path = false) ∧
    (['.', '.'] ∈ pySplit (normSeps target_path) →
      is_safe_path base_path target_path = false) ∧
    (isAbsolute target_path = false →
      ['.', '.'] ∉ pySplit (normSeps target_path) →
      is_safe_path base_path target_path = true ∧
      resolveAbs base_path <+: resolveComps (pySplit base_path ++ pySplit target_path)) := by
  refine ⟨?_, ?_, ?_⟩
  · intro habs
    simp [is_safe_path, habs]
  · intro hmem
    have hcon : (pySplit (normSeps target_path)).contains ['.', '.'] = true := by
      simpa using hmem
    by_cases habs : isAbsolute target_path = true
    · simp [is_safe_path, habs]
    · simp only [is_safe_path, habs, hcon]
      simp
  · intro habs hmem
    have hcontains : (pySplit (normSeps target_path)).contains ['.', '.'] = false := by
      simpa using hmem
    have hnd : ∀ s ∈ pySplit target_path, s ≠ ['.', '.'] := by
      intro s hs he
      exact hmem (dotdot_mem_normSeps (he ▸ hs))
    have hres : resolveComps (pySplit base_path ++ pySplit target_path)
        = resolveAbs base_path
          ++ (pySplit target_path).filter (fun s => !(decide (s = [] ∨ s = ['.']))) := by
      rw [resolveComps, List.foldl_append]
      exact foldl_resolveStep_no_dotdot (pySplit target_path) hnd _
    constructor
    · simp only [is_safe_path, habs, hcontains]
      simp only [Bool.false_eq_true, if_false]
      rw [hres, commonPath_self_append]
      simp
    · exact ⟨_, hres.symm⟩


/-- C1 counterexample for the claim as stated: `"a/../b"` is relative and
resolves strictly under `"/extract"` (to `/extract/b`), so the claim's
"returns true for every relative path that resolves strictly under the
canonicalized root" demands `true` — but the code rejects it because of the
`".."` segment. -/
theorem is_safe_path_claim_counterexample :
    isAbsolute (str "a/../b") = false ∧
    resolveComps (pySplit (str "/extract") ++ pySplit (str "a/../b"))
      = resolveAbs (str "/extract") ++ [str "b"] ∧
    resolveAbs (str "/extract")
      ≠ resolveComps (pySplit (str "/extract") ++ pySplit (str "a/../b")) ∧
    resolveAbs (str "/extract")
      <+: resolveComps (pySplit (str "/extract") ++ pySplit (str "a/../b")) ∧
    is_safe_path (str "/extract") (str "a/../b") = false := by
  decide

/-- Witness for C1 at the spec's example inputs. -/
theorem is_safe_path_correct_witness :
    isAbsolute (str "sub/file.txt") = false ∧
    (['.', '.'] ∉ pySplit (normSeps (str "sub/file.txt"))) ∧
    is_safe_path (str "/extract") (str "sub/file.txt") = true :=
  ⟨by decide, by decide,
   ((is_safe_path_correct (str "/extract") (str "sub/file.txt")).2.2
      (by decide) (by decide)).1⟩

/-! ## C6: `detect_root_folder` -/

theorem gen_cons_headI_tail {α : Type} [Inhabited α] {l : List α} (h : l ≠ []) :
    l.headI :: l.tail = l := by
  cases l with
  | nil => exact absurd rfl h
  | cons a t => rfl

theorem gen_headI_append {α : Type} [Inhabited α] {l m : List α} (h : l ≠ []) :
    (l ++ m).headI = l.headI := by
  cases l with
  | nil => exact absurd rfl h
  | cons a t => rfl

theorem dropWhile_headI_false {p : Char → Bool} {l : Str} (h : l.dropWhile p ≠ []) :
    p ((l.dropWhile p).headI) = false := by
  induction l with
  | nil => simp at h
  | cons a t ih =>
    rw [List.dropWhile_cons] at h ⊢
    split at h
    · rename_i hp
      rw [if_pos hp]
      exact ih h
    · rename_i hp
      rw [if_neg hp]
      simpa using hp

theorem dropWhile_isSuf (p : Char → Bool) (l : Str) : l.dropWhile p <:+ l := by
  induction l with
  | nil => exact List.suffix_refl _
  | cons a t ih =>
    rw [List.dropWhile_cons]
    split
    · exact ih.trans (List.suffix_cons a t)
    · exact List.suffix_refl _

theorem dropTrailing_isPre (p : Char → Bool) (s : Str) : dropTrailing p s <+: s := by
  obtain ⟨t, ht⟩ := dropWhile_isSuf p s.reverse
  refine ⟨t.reverse, ?_⟩
  have h2 : (t ++ s.reverse.dropWhile p).reverse = s := by
    rw [ht, List.reverse_reverse]
  rw [List.reverse_append] at h2
  exact h2

theorem headI_of_isPre {l m : Str} (h : l <+: m) (hne : l ≠ []) : m.headI = l.headI := by
  obtain ⟨t, rfl⟩ := h
  exact gen_headI_append hne

/-- A non-empty normalised path does not start with a separator. -/
theorem pyNormalize_headI {p : Str} (h : pyNormalize p ≠ []) :
    (pyNormalize p).headI ≠ '/' := by
  have hd : ((normSeps p).dropWhile (fun c => c = '/')) ≠ [] := by
    intro h0
    exact h (by simp [pyNormalize, pyStrip, dropTrailing, h0])
  have hpre : pyNormalize p <+: (normSeps p).dropWhile (fun c => c = '/') :=
    dropTrailing_isPre _ _
  have heq := headI_of_isPre hpre h
  have hh : decide ((((normSeps p).dropWhile (fun c => c = '/'))).headI = '/') = false :=
    dropWhile_headI_false (p := fun c => c = '/') hd
  rw [heq] at hh
  simpa using hh

theorem pySplit_no_slash {s : Str} (h : '/' ∉ s) : pySplit s = [s] := by
  induction s with
  | nil => rfl
  | cons c t ih =>
    have hc : c ≠ '/' := fun he => h (he ▸ List.mem_cons_self c t)
    have ht : '/' ∉ t := fun hm => h (List.mem_cons_of_mem c hm)
    simp only [pySplit, if_neg hc, ih ht]
    rfl

theorem pySplit_append_slash {r : Str} (hr : '/' ∉ r) (t : Str) :
    pySplit (r ++ '/' :: t) = r :: pySplit t := by
  induction r with
  | nil => simp [pySplit]
  | cons c r' ih =>
    have hc : c ≠ '/' := fun he => hr (he ▸ List.mem_cons_self c r')
    have hr' : '/' ∉ r' := fun hm => hr (List.mem_cons_of_mem c hm)
    have hstep : pySplit (c :: (r' ++ '/' :: t))
        = (c :: (pySplit (r' ++ '/' :: t)).headI) :: (pySplit (r' ++ '/' :: t)).tail := by
      simp only [pySplit, if_neg hc]
    show pySplit (c :: (r' ++ '/' :: t)) = (c :: r') :: pySplit t
    rw [hstep, ih hr']
    rfl

/-- A non-empty string that does not start with `'/'` has a non-empty,
separator-free first split segment, and either equals it or extends it past
a separator. -/
theorem headI_pySplit_props {n : Str} (hn : n ≠ []) (hh : n.headI ≠ '/') :
    (pySplit n).headI ≠ [] ∧ '/' ∉ (pySplit n).headI ∧
    (n = (pySplit n).headI ∨ ((pySplit n).headI ++ ['/']) <+: n) := by
  by_cases hsl : '/' ∈ n
  · have hdec := List.takeWhile_append_dropWhile (p := fun c => c ≠ '/') (l := n)
    have hdw : n.dropWhile (fun c => c ≠ '/') ≠ [] := by
      intro h0
      rw [h0, List.append_nil] at hdec
      have hmem : '/' ∈ n.takeWhile (fun c => c ≠ '/') := by
        rw [hdec]
        exact hsl
      have := List.mem_takeWhile_imp hmem
      simp at this
    have hdw_head : (n.dropWhile (fun c => c ≠ '/')).headI = '/' := by
      have hb : decide ((n.dropWhile (fun c => c ≠ '/')).headI ≠ '/') = false :=
        dropWhile_headI_false (p := fun c => c ≠ '/') hdw
      simpa using hb
    have htw : '/' ∉ n.takeWhile (fun c => c ≠ '/') := by
      intro hm
      have := List.mem_takeWhile_imp hm
      simp at this
    have htw_ne : n.takeWhile (fun c => c ≠ '/') ≠ [] := by
      intro h0
      rw [h0, List.nil_append] at hdec
      rw [← hdec] at hh
      exact hh hdw_head
    have hn_eq : n = n.takeWhile (fun c => c ≠ '/')
        ++ '/' :: (n.dropWhile (fun c => c ≠ '/')).tail := by
      have h1 : '/' :: (n.dropWhile (fun c => c ≠ '/')).tail
          = n.dropWhile (fun c => c ≠ '/') := by
        conv_rhs => rw [← gen_cons_headI_tail hdw]
        rw [hdw_head]
      rw [h1]
      exact hdec.symm
    have hsplit : pySplit n = n.takeWhile (fun c => c ≠ '/')
        :: pySplit (n.dropWhile (fun c => c ≠ '/')).tail := by
      conv_lhs => rw [hn_eq]
      exact pySplit_append_slash htw _
    rw [hsplit]
    refine ⟨htw_ne, htw, Or.inr ⟨(n.dropWhile (fun c => c ≠ '/')).tail, ?_⟩⟩
    conv_rhs => rw [hn_eq]
    simp
  · rw [pySplit_no_slash hsl]
    exact ⟨hn, hsl, Or.inl rfl⟩

/-- The first split segment of a path lying under root segment `r` is `r`. -/
theorem headI_pySplit_of_under {n r : Str} (hr : '/' ∉ r)
    (h : n = r ∨ (r ++ ['/']) <+: n) : (pySplit n).headI = r := by
  rcases h with rfl | ⟨t, ht⟩
  · rw [pySplit_no_slash hr]
    rfl
  · have hn : n = r ++ '/' :: t := by
      rw [← ht]
      simp
    rw [hn, pySplit_append_slash hr]
    rfl

theorem dedup_eq_singleton_iff {l : List Str} {r : Str} :
    l.dedup = [r] ↔ (l ≠ [] ∧ ∀ x ∈ l, x = r) := by
  constructor
  · intro h
    constructor
    · intro h0
      rw [h0] at h
      simp at h
    · intro x hx
      have hxd : x ∈ l.dedup := List.mem_dedup.mpr hx
      rw [h] at hxd
      simpa using hxd
  · rintro ⟨h0, hall⟩
    have hnd : l.dedup.Nodup := l.nodup_dedup
    cases hd : l.dedup with
    | nil =>
      rw [List.dedup_eq_nil] at hd
      exact absurd hd h0
    | cons y ys =>
      have hy : y = r := hall y (List.mem_dedup.mp (hd ▸ List.mem_cons_self y ys))
      cases ys with
      | nil => rw [hy]
      | cons z zs =>
        have hz : z = r := hall z (List.mem_dedup.mp (hd ▸ by simp))
        rw [hd, hy, hz] at hnd
        simp at hnd

theorem isPrefixOf_eq_true : ∀ (l m : Str), l.isPrefixOf m = true ↔ l <+: m := by
  intro l
  induction l with
  | nil =>
    intro m
    simp only [List.isPrefixOf]
    exact ⟨fun _ => ⟨m, rfl⟩, fun _ => trivial⟩
  | cons a l' ih =>
    intro m
    cases m with
    | nil =>
      simp only [List.isPrefixOf]
      constructor
      · intro h
        simp at h
      · rintro ⟨t, ht⟩
        simp at ht
    | cons b m' =>
      simp only [List.isPrefixOf, Bool.and_eq_true, beq_iff_eq, ih m']
      constructor
      · rintro ⟨rfl, ⟨t, rfl⟩⟩
        exact ⟨t, rfl⟩
      · rintro ⟨t, ht⟩
        injection ht with h1 h2
        exact ⟨h1, ⟨t, h2⟩⟩


/-- The deduplicated set of first segments built by `detect_root_folder`. -/
def rootsOf (paths : List Str) : List Str :=
  (paths.filterMap (fun p =>
    if pyNormalize p = [] then none
    else some (pySplit (pyNormalize p)).headI)).dedup

/-- Unfolding of `detect_root_folder` through its `let` bindings. -/
theorem detect_root_folder_eq (paths : List Str) :
    detect_root_folder paths =
      if paths.isEmpty then none
      else if (rootsOf paths).length = 1 then
        if paths.all (fun p =>
          if pyNormalize p = [] then true
          else ((rootsOf paths).headI ++ ['/']).isPrefixOf (pyNormalize p)
            || pyNormalize p == (rootsOf paths).headI)
        then some (rootsOf paths).headI else none
      else none := rfl

/-- C6: `detect_root_folder` returns `some r` exactly when `r` is a
non-empty separator-free segment, at least one path is non-empty after
normalisation, and every non-empty normalised path either equals `r` or
starts with `r` followed by a separator; it returns `none` for empty input,
multiple distinct first segments, or a root-level file beside the
candidate. -/
theorem detect_root_folder_correct (paths : List Str) (r : Str) :
    detect_root_folder paths = some r ↔
      (r ≠ [] ∧ '/' ∉ r ∧ (∃ p ∈ paths, pyNormalize p ≠ []) ∧
       ∀ p ∈ paths, pyNormalize p ≠ [] →
         (pyNormalize p = r ∨ (r ++ ['/']) <+: pyNormalize p)) := by
  rw [detect_root_folder_eq]
  constructor
  · intro h
    split at h
    · exact absurd h (by simp)
    · split at h
      · split at h
        · rename_i h0 h1 h2
          have hr : (rootsOf paths).headI = r := by
            injection h
          obtain ⟨a, ha⟩ := List.length_eq_one.mp h1
          have hded : rootsOf paths = [r] := by
            rw [ha] at hr ⊢
            rw [show ([a] : List Str).headI = a from rfl] at hr
            rw [hr]
          obtain ⟨hFne, hFall⟩ := dedup_eq_singleton_iff.mp hded
          -- a witness path with non-empty normalisation
          obtain ⟨x, hxF⟩ := List.exists_mem_of_ne_nil _ hFne
          obtain ⟨p0, hp0, hfp0⟩ := List.mem_filterMap.mp hxF
          have hnp0 : pyNormalize p0 ≠ [] := by
            intro h0'
            rw [if_pos h0'] at hfp0
            exact Option.noConfusion hfp0
          -- per-path property
          have hmain : ∀ p ∈ paths, pyNormalize p ≠ [] →
              (pySplit (pyNormalize p)).headI = r := by
            intro p hp hnp
            have hxmem : (pySplit (pyNormalize p)).headI ∈ paths.filterMap (fun q =>
                if pyNormalize q = [] then none
                else some (pySplit (pyNormalize q)).headI) :=
              List.mem_filterMap.mpr ⟨p, hp, by rw [if_neg hnp]⟩
            exact hFall _ hxmem
          have hprops0 := headI_pySplit_props hnp0 (pyNormalize_headI hnp0)
          rw [hmain p0 hp0 hnp0] at hprops0
          refine ⟨hprops0.1, hprops0.2.1, ⟨p0, hp0, hnp0⟩, ?_⟩
          intro p hp hnp
          have hprops := headI_pySplit_props hnp (pyNormalize_headI hnp)
          rw [hmain p hp hnp] at hprops
          exact hprops.2.2
        · exact absurd h (by simp)
      · exact absurd h (by simp)
  · rintro ⟨hrne, hrs, ⟨p0, hp0, hnp0⟩, hall⟩
    have hFall : ∀ x ∈ paths.filterMap (fun p =>
        if pyNormalize p = [] then none
        else some (pySplit (pyNormalize p)).headI), x = r := by
      intro x hx
      obtain ⟨p, hp, hfp⟩ := List.mem_filterMap.mp hx
      by_cases hnp : pyNormalize p = []
      · rw [if_pos hnp] at hfp
        exact Option.noConfusion hfp
      · rw [if_neg hnp] at hfp
        have hx' : x = (pySplit (pyNormalize p)).headI := (Option.some.injEq _ _ ▸ hfp).symm
        rw [hx']
        exact headI_pySplit_of_under hrs (hall p hp hnp)
    have hFne : paths.filterMap (fun p =>
        if pyNormalize p = [] then none
        else some (pySplit (pyNormalize p)).headI) ≠ [] := by
      intro h0
      have hnone := List.filterMap_eq_nil_iff.mp h0 p0 hp0
      rw [if_neg hnp0] at hnone
      exact Option.noConfusion hnone
    have hded : rootsOf paths = [r] := dedup_eq_singleton_iff.mpr ⟨hFne, hFall⟩
    have hne : paths.isEmpty = false := by
      cases paths with
      | nil => simp at hp0
      | cons a t => rfl
    rw [hne]
    simp only [Bool.false_eq_true, if_false]
    rw [hded]
    rw [if_pos (show ([r] : List Str).length = 1 from rfl)]
    have hallb : paths.all (fun p =>
        if pyNormalize p = [] then true
        else (([r] : List Str).headI ++ ['/']).isPrefixOf (pyNormalize p)
          || pyNormalize p == ([r] : List Str).headI) = true := by
      rw [List.all_eq_true]
      intro p hp
      by_cases hnp : pyNormalize p = []
      · simp [hnp]
      · rw [if_neg hnp]
        rcases hall p hp hnp with heq | hpre
        · rw [show ([r] : List Str).headI = r from rfl]
          simp [heq]
        · rw [show ([r] : List Str).headI = r from rfl]
          rw [Bool.or_eq_true]
          exact Or.inl ((isPrefixOf_eq_true _ _).mpr hpre)
    rw [if_pos hallb]
    rfl


/-! ## C2: `extract` failure paths -/

/-- Every run of `extract` either succeeds with status `completed` or fails
with status `failed` and a non-null error message.  (The model is
single-threaded, so the `cancelled` paths are unreachable.) -/
theorem extract_cases (w : World) (t : ExtractionTask) :
    ((extract w t).result = true ∧ (extract w t).task.status = TaskStatus.completed) ∨
    ((extract w t).result = false ∧ (extract w t).task.status = TaskStatus.failed ∧
      ((extract w t).task.error_message).isSome = true) := by
  simp only [extract]
  repeat' split
  all_goals first
    | exact Or.inl ⟨rfl, rfl⟩
    | exact Or.inr ⟨rfl, rfl, rfl⟩

/-- The precondition checks of `extract`, in their order: archive
validation, inspection validity, disk space. -/
def preconditionFails (w : World) (t : ExtractionTask) : Bool :=
  if (validate_archive w t.archive_path).1 = false then true
  else match get_archive_info w t.archive_path with
    | .error _ => true
    | .ok info =>
      if info.is_valid = false then true
      else (validate_disk_space w.dirExists w.diskUsage
        (pathParts t.destination_path) info.uncompressed_size 1 10).1 = false

/-- C2: `extract` is a total function (no exception escapes by
construction); every failing run leaves the task failed with a non-null
error message and returns false; and when a precondition (validation,
inspection, disk space) fails, extraction fails before any entry is
touched: the filesystem is unchanged and no progress callback fired. -/
theorem extract_failure_paths (w : World) (t : ExtractionTask) :
    ((extract w t).result = false → (extract w t).task.status = TaskStatus.failed ∧
      ((extract w t).task.error_message).isSome = true) ∧
    (preconditionFails w t = true → (extract w t).result = false ∧
      (extract w t).fs = w.fs ∧ (extract w t).callbacks = []) := by
  constructor
  · intro hres
    rcases extract_cases w t with ⟨h1, _⟩ | ⟨_, h2, h3⟩
    · rw [h1] at hres
      exact absurd hres (by simp)
    · exact ⟨h2, h3⟩
  · intro hpre
    rw [preconditionFails] at hpre
    simp only [extract]
    split
    · exact ⟨rfl, rfl, rfl⟩
    · rename_i hv
      rw [if_neg hv] at hpre
      split
      · exact ⟨rfl, rfl, rfl⟩
      · rename_i info heq
        rw [heq] at hpre
        have hpre2 : (if info.is_valid = false then true
            else decide ((validate_disk_space w.dirExists w.diskUsage
              (pathParts t.destination_path) info.uncompressed_size 1 10).1 = false))
            = true := hpre
        split
        · exact ⟨rfl, rfl, rfl⟩
        · rename_i hvalid
          rw [if_neg hvalid] at hpre2
          have hsp : (validate_disk_space w.dirExists w.diskUsage
              (pathParts t.destination_path) info.uncompressed_size 1 10).1 = false :=
            of_decide_eq_true hpre2
          split
          · exact ⟨rfl, rfl, rfl⟩
          · rename_i hspace
            exact absurd hsp hspace

/-- A world whose archive does not exist. -/
def WMissing : World := { archiveExists := false }

/-- A minimal task pointing at that world. -/
def TMissing : ExtractionTask :=
  { task_id := str "t", archive_path := str "/in/a.zip", destination_path := str "/out" }

/-- Witness for C2 at a concrete precondition-failing world. -/
theorem extract_failure_paths_witness :
    preconditionFails WMissing TMissing = true ∧
    ((extract WMissing TMissing).result = false ∧
      (extract WMissing TMissing).fs = WMissing.fs ∧
      (extract WMissing TMissing).callbacks = []) ∧
    ((extract WMissing TMissing).task.status = TaskStatus.failed ∧
      ((extract WMissing TMissing).task.error_message).isSome = true) :=
  ⟨by decide, (extract_failure_paths WMissing TMissing).2 (by decide),
   (extract_failure_paths WMissing TMissing).1 (by decide)⟩

/-! ## C3: progress-callback accounting -/

def isFatalEvent : EntryEvent → Bool
  | .fatal _ _ => true
  | _ => false

/-- Callback log of a loop outcome (also of an aborted one). -/
def loopCallbacks : Except (ℕ × Str × LoopState) LoopState → List ExtractionTask
  | .ok st => st.callbacks
  | .error (_, _, st) => st.callbacks

/-- The outcomes for which the loop body fires the progress callback:
a safe non-directory entry that is either skipped by conflict resolution or
reaches the read/write step without a fatal exception.  Entries rejected by
the path-safety check, directory entries, entries whose parent directory
cannot be created, and entries with a fatal exception produce no callback. -/
def callbackExpected (extraction_base : Str) (fs : FS) (timeMs : ℕ)
    (policy : ConflictResolution) (m : ZipEntry) : Bool :=
  is_safe_path extraction_base m.filename && !m.is_dir &&
    (match (if fsExists fs (pyJoin extraction_base m.filename)
            then resolveConflict fs timeMs (pyJoin extraction_base m.filename) policy
            else some (pyJoin extraction_base m.filename)) with
     | none => true
     | some _ => m.parentMkdirOk && !(isFatalEvent m.event))

/-- Per-entry callback count: the loop body invokes the callback exactly
once when `callbackExpected` holds, and never otherwise. -/
theorem processMember_callbacks (extraction_base : Str) (timeMs : ℕ)
    (st : LoopState) (m : ZipEntry) :
    (loopCallbacks (processMember extraction_base timeMs st m)).length
    = st.callbacks.length
      + (if callbackExpected extraction_base st.fs timeMs st.task.conflict_resolution m
         then 1 else 0) := by
  rw [processMember, callbackExpected]
  dsimp only
  split
  · rename_i hsafe
    rw [hsafe]
    split
    · simp [loopCallbacks]
    · simp [loopCallbacks]
  · rename_i hsafe
    have hs : is_safe_path extraction_base m.filename = true := by
      simpa using hsafe
    rw [hs]
    split
    · rename_i hdir
      rw [hdir]
      simp [loopCallbacks]
    · rename_i hdir
      have hd : m.is_dir = false := by simpa using hdir
      rw [hd]
      split
      · simp [loopCallbacks]
      · split
        · rename_i hmk
          rw [hmk]
          simp [loopCallbacks]
        · rename_i hmk
          have hmk' : m.parentMkdirOk = true := by simpa using hmk
          rw [hmk']
          split
          · rename_i hev
            rw [hev]
            simp [loopCallbacks, isFatalEvent]
          · rename_i hev
            rw [hev]
            simp [loopCallbacks, isFatalEvent]
          · rename_i hev
            rw [hev]
            simp [loopCallbacks, isFatalEvent]

theorem callbackExpected_not_dir {extraction_base : Str} {fs : FS} {timeMs : ℕ}
    {policy : ConflictResolution} {m : ZipEntry}
    (h : callbackExpected extraction_base fs timeMs policy m = true) :
    m.is_dir = false := by
  rw [callbackExpected] at h
  simp only [Bool.and_eq_true, Bool.not_eq_true'] at h
  exact h.1.2

/-- The whole loop fires at most one callback per non-directory entry. -/
theorem runLoop_callbacks_le (extraction_base : Str) (timeMs : ℕ) :
    ∀ (members : List ZipEntry) (st : LoopState),
      (loopCallbacks (runLoop extraction_base timeMs st members)).length
      ≤ st.callbacks.length + (members.filter (fun m => !m.is_dir)).length := by
  intro members
  induction members with
  | nil =>
    intro st
    simp [runLoop, loopCallbacks]
  | cons m rest ih =>
    intro st
    have hcount := processMember_callbacks extraction_base timeMs st m
    rw [runLoop]
    rcases hpm : processMember extraction_base timeMs st m with e | st'
    · obtain ⟨k, msg, stx⟩ := e
      rw [hpm] at hcount
      simp only [hpm, loopCallbacks] at hcount ⊢
      by_cases hcb : callbackExpected extraction_base st.fs timeMs
          st.task.conflict_resolution m = true
      · have hdir := callbackExpected_not_dir hcb
        rw [hcb, if_pos rfl] at hcount
        rw [List.filter_cons_of_pos (by simp [hdir])]
        simp only [List.length_cons]
        omega
      · rw [if_neg hcb] at hcount
        rcases hfd : m.is_dir with _ | _
        · rw [List.filter_cons_of_pos (by simp [hfd])]
          simp only [List.length_cons]
          omega
        · rw [List.filter_cons_of_neg (by simp [hfd])]
          omega
    · rw [hpm] at hcount
      simp only [loopCallbacks] at hcount
      simp only [hpm]
      have hrec := ih st'
      by_cases hcb : callbackExpected extraction_base st.fs timeMs
          st.task.conflict_resolution m = true
      · have hdir := callbackExpected_not_dir hcb
        rw [hcb, if_pos rfl] at hcount
        rw [List.filter_cons_of_pos (by simp [hdir])]
        simp only [List.length_cons]
        omega
      · rw [if_neg hcb] at hcount
        rcases hfd : m.is_dir with _ | _
        · rw [List.filter_cons_of_pos (by simp [hfd])]
          simp only [List.length_cons]
          omega
        · rw [List.filter_cons_of_neg (by simp [hfd])]
          omega

theorem runLoop_ok_callbacks_le {B : Str} {T : ℕ} {S : LoopState}
    {members : List ZipEntry} {st' : LoopState}
    (h : runLoop B T S members = .ok st') :
    st'.callbacks.length
      ≤ S.callbacks.length + (members.filter (fun m => !m.is_dir)).length := by
  have hb := runLoop_callbacks_le B T members S
  rw [h] at hb
  simpa [loopCallbacks] using hb

theorem runLoop_error_callbacks_le {B : Str} {T : ℕ} {S : LoopState}
    {members : List ZipEntry} {k : ℕ} {msg : Str} {st' : LoopState}
    (h : runLoop B T S members = .error (k, msg, st')) :
    st'.callbacks.length
      ≤ S.callbacks.length + (members.filter (fun m => !m.is_dir)).length := by
  have hb := runLoop_callbacks_le B T members S
  rw [h] at hb
  simpa [loopCallbacks] using hb

/-- C3 (amended): the loop body fires the progress callback exactly once for
every entry that is written, skipped by conflict resolution, or fails during
read/write — and zero times for directory entries, entries rejected by the
path-safety check, entries whose parent-directory creation fails, and the
entry whose fatal exception aborts the run; consequently a whole `extract`
run fires at most one callback per non-directory entry. -/
theorem extract_callback_accounting :
    (∀ (extraction_base : Str) (timeMs : ℕ) (st : LoopState) (m : ZipEntry),
      (loopCallbacks (processMember extraction_base timeMs st m)).length
      = st.callbacks.length
        + (if callbackExpected extraction_base st.fs timeMs
            st.task.conflict_resolution m then 1 else 0)) ∧
    (∀ (w : World) (t : ExtractionTask) (members : List ZipEntry) (bad : Option Str),
      w.zipOpen = ZipOpen.ok members bad →
      (extract w t).callbacks.length ≤ (members.filter (fun m => !m.is_dir)).length) := by
  constructor
  · exact processMember_callbacks
  · intro w t members bad hz
    simp only [extract]
    split
    · simp [mkFail]
    · split
      · simp [mkFail]
      · split
        · simp [mkFail]
        · split
          · simp [mkFail]
          · split
            · simp [mkFail]
            · split
              · simp [mkFail]
              · split
                · rename_i members' bad' hzip
                  have hz2 : w.zipOpen = ZipOpen.ok members bad := hz
                  rw [hzip] at hz2
                  injection hz2 with h1 h2
                  subst h1
                  split
                  · rename_i st0 hrl
                    have hb := runLoop_ok_callbacks_le hrl
                    simpa using hb
                  · rename_i e k msg st0 hrl
                    have hb := runLoop_error_callbacks_le hrl
                    simpa using hb
                · simp [mkFail]
                · simp [mkFail]

/-- A safe world holding a single non-directory entry whose path is
unsafe. -/
def unsafeEntry : ZipEntry := { filename := str "../x", is_dir := false, file_size := 5 }

def WUnsafe : World :=
  { archiveExists := true
    zipOpen := .ok [unsafeEntry] none
    diskUsage := fun _ => some 1000000 }

def TPlain : ExtractionTask :=
  { task_id := str "t", archive_path := str "/in/a.zip",
    destination_path := str "/out", create_root_folder := false }

/-- C3 counterexample for the claim as stated: the run processes exactly one
non-directory entry, which is rejected by the path-safety check and recorded
in failed-files — but the progress callback is never invoked, although the
claim demands exactly one invocation for such an entry. -/
theorem extract_callback_claim_counterexample :
    WUnsafe.zipOpen = ZipOpen.ok [unsafeEntry] none ∧
    unsafeEntry.is_dir = false ∧
    (extract WUnsafe TPlain).result = true ∧
    (extract WUnsafe TPlain).task.failed_files = [unsafeEntry.filename] ∧
    (extract WUnsafe TPlain).callbacks = [] := by
  refine ⟨rfl, rfl, ?_, ?_, ?_⟩ <;> decide

/-! ## C4: byte accounting -/

/-- Total declared uncompressed size of a list of entries. -/
def sumSizes (es : List ZipEntry) : ℕ := (es.map (fun e => e.file_size)).sum

/-- The state of a loop outcome (also of an aborted one). -/
def loopStateOf : Except (ℕ × Str × LoopState) LoopState → LoopState
  | .ok st => st
  | .error (_, _, st) => st

/-- The byte-accounting invariant: `extracted_bytes` equals the base count
plus the sizes of the written and conflict-skipped entries, and the callback
snapshots carry non-decreasing byte counts bounded by the current count. -/
def ByteInv (B0 : ℕ) (st : LoopState) : Prop :=
  st.task.extracted_bytes = B0 + sumSizes st.written + sumSizes st.skippedC ∧
  List.Chain' (· ≤ ·) (st.callbacks.map (fun c => c.extracted_bytes)) ∧
  ∀ c ∈ st.callbacks, c.extracted_bytes ≤ st.task.extracted_bytes

theorem chain_append_le {l : List ExtractionTask} {cur : ℕ}
    (hc : List.Chain' (· ≤ ·) (l.map (fun c => c.extracted_bytes)))
    (hle : ∀ c ∈ l, c.extracted_bytes ≤ cur) (t : ExtractionTask)
    (ht : cur ≤ t.extracted_bytes) :
    List.Chain' (· ≤ ·) ((l ++ [t]).map (fun c => c.extracted_bytes)) := by
  rw [List.map_append, List.chain'_append]
  refine ⟨hc, List.chain'_singleton _, ?_⟩
  intro x hx y hy
  simp only [List.map_cons, List.map_nil, List.head?_cons, Option.mem_def,
    Option.some.injEq] at hy
  rw [List.getLast?_map] at hx
  rcases Option.map_eq_some'.mp hx with ⟨c, hc2, hfc⟩
  have hcm : c ∈ l := by
    obtain ⟨hne, hcc⟩ := List.mem_getLast?_eq_getLast (show c ∈ l.getLast? from hc2)
    exact hcc ▸ List.getLast_mem hne
  rw [← hy, ← hfc]
  exact le_trans (hle c hcm) ht

theorem sumSizes_append (l : List ZipEntry) (m : ZipEntry) :
    sumSizes (l ++ [m]) = sumSizes l + m.file_size := by
  simp [sumSizes]

/-- The loop body preserves the byte-accounting invariant. -/
theorem processMember_byteInv {B0 : ℕ} {extraction_base : Str} {timeMs : ℕ}
    {st : LoopState} {m : ZipEntry} (h : ByteInv B0 st) :
    ByteInv B0 (loopStateOf (processMember extraction_base timeMs st m)) := by
  obtain ⟨h1, h2, h3⟩ := h
  rw [processMember]
  dsimp only
  split
  · split
    · exact ⟨h1, h2, h3⟩
    · exact ⟨h1, h2, h3⟩
  · split
    · exact ⟨h1, h2, h3⟩
    · split
      · -- conflict skip: bytes advance, snapshot appended
        refine ⟨?_, ?_, ?_⟩
        · show st.task.extracted_bytes + m.file_size
            = B0 + sumSizes st.written + sumSizes (st.skippedC ++ [m])
          rw [sumSizes_append]
          omega
        · exact chain_append_le h2 h3 _ (Nat.le_add_right _ _)
        · intro c hc
          rcases List.mem_append.mp hc with hcl | hcr
          · exact le_trans (h3 c hcl) (Nat.le_add_right _ _)
          · have : c = _ := List.mem_singleton.mp hcr
            subst this
            exact le_rfl
      · split
        · -- parent mkdir failure: only failed_files changes
          exact ⟨h1, h2, h3⟩
        · split
          · -- fatal exception: state unchanged up to current_file
            exact ⟨h1, h2, h3⟩
          · -- read/write failure: snapshot appended, bytes unchanged
            refine ⟨h1, ?_, ?_⟩
            · exact chain_append_le h2 h3 _ le_rfl
            · intro c hc
              rcases List.mem_append.mp hc with hcl | hcr
              · exact h3 c hcl
              · have : c = _ := List.mem_singleton.mp hcr
                subst this
                exact le_rfl
          · -- successful write: bytes advance, snapshot appended
            refine ⟨?_, ?_, ?_⟩
            · show st.task.extracted_bytes + m.file_size
                = B0 + sumSizes (st.written ++ [m]) + sumSizes st.skippedC
              rw [sumSizes_append]
              omega
            · exact chain_append_le h2 h3 _ (Nat.le_add_right _ _)
            · intro c hc
              rcases List.mem_append.mp hc with hcl | hcr
              · exact le_trans (h3 c hcl) (Nat.le_add_right _ _)
              · have : c = _ := List.mem_singleton.mp hcr
                subst this
                exact le_rfl

/-- The loop preserves the byte-accounting invariant. -/
theorem runLoop_byteInv {B0 : ℕ} {extraction_base : Str} {timeMs : ℕ} :
    ∀ (members : List ZipEntry) (st : LoopState), ByteInv B0 st →
      ByteInv B0 (loopStateOf (runLoop extraction_base timeMs st members)) := by
  intro members
  induction members with
  | nil =>
    intro st h
    exact h
  | cons m rest ih =>
    intro st h
    have hm := @processMember_byteInv B0 extraction_base timeMs st m h
    rw [runLoop]
    rcases hpm : processMember extraction_base timeMs st m with e | st'
    · rw [hpm] at hm
      obtain ⟨k, msg, stx⟩ := e
      exact hm
    · rw [hpm] at hm
      exact ih st' hm

theorem sumSizes_cat (a b : List ZipEntry) : sumSizes (a ++ b) = sumSizes a + sumSizes b := by
  simp [sumSizes]

theorem runLoop_ok_byteInv (B0 : ℕ) {B : Str} {T : ℕ} {S : LoopState}
    {members : List ZipEntry} {st' : LoopState}
    (h : runLoop B T S members = .ok st') (hS : ByteInv B0 S) : ByteInv B0 st' := by
  have hinv := @runLoop_byteInv B0 B T members S hS
  rw [h] at hinv
  exact hinv

theorem runLoop_error_byteInv (B0 : ℕ) {B : Str} {T : ℕ} {S : LoopState}
    {members : List ZipEntry} {k : ℕ} {msg : Str} {st' : LoopState}
    (h : runLoop B T S members = .error (k, msg, st')) (hS : ByteInv B0 S) :
    ByteInv B0 st' := by
  have hinv := @runLoop_byteInv B0 B T members S hS
  rw [h] at hinv
  exact hinv

/-- C4: starting from zero counters, a run that reaches the end of the entry
loop leaves `extracted_bytes` equal to the summed declared sizes of exactly
the written and conflict-skipped file entries (failed entries contribute
nothing), and the byte counts seen by consecutive progress callbacks never
decrease — in every run. -/
theorem extract_byte_accounting (w : World) (t : ExtractionTask)
    (h0 : t.extracted_bytes = 0) :
    ((extract w t).result = true →
      (extract w t).task.extracted_bytes
        = sumSizes ((extract w t).written ++ (extract w t).skippedC)) ∧
    List.Chain' (· ≤ ·) ((extract w t).callbacks.map (fun c => c.extracted_bytes)) := by
  simp only [extract]
  split
  · exact ⟨fun h => by simp [mkFail] at h, by simp [mkFail]⟩
  · split
    · exact ⟨fun h => by simp [mkFail] at h, by simp [mkFail]⟩
    · split
      · exact ⟨fun h => by simp [mkFail] at h, by simp [mkFail]⟩
      · split
        · exact ⟨fun h => by simp [mkFail] at h, by simp [mkFail]⟩
        · split
          · exact ⟨fun h => by simp [mkFail] at h, by simp [mkFail]⟩
          · split
            · exact ⟨fun h => by simp [mkFail] at h, by simp [mkFail]⟩
            · split
              · rename_i members' bad' hzip
                split
                · rename_i st0 hrl
                  have hinv := runLoop_ok_byteInv 0 hrl
                    (by refine ⟨?_, ?_, ?_⟩ <;> simp [sumSizes, h0])
                  obtain ⟨hb, hchain, _⟩ := hinv
                  constructor
                  · intro _
                    show st0.task.extracted_bytes
                      = sumSizes (st0.written ++ st0.skippedC)
                    rw [sumSizes_cat]
                    omega
                  · exact hchain
                · rename_i e k msg st0 hrl
                  have hinv := runLoop_error_byteInv 0 hrl
                    (by refine ⟨?_, ?_, ?_⟩ <;> simp [sumSizes, h0])
                  exact ⟨fun h => by simp at h, hinv.2.1⟩
              · exact ⟨fun h => by simp [mkFail] at h, by simp [mkFail]⟩
              · exact ⟨fun h => by simp [mkFail] at h, by simp [mkFail]⟩

/-- A world with one healthy file entry. -/
def WSimple : World :=
  { archiveExists := true
    zipOpen := .ok [{ filename := str "a.txt", is_dir := false, file_size := 5,
                      content := str "hello" }] none
    diskUsage := fun _ => some 1000000 }

/-- Witness for C4 at a concrete run. -/
theorem extract_byte_accounting_witness :
    TPlain.extracted_bytes = 0 ∧
    ((extract WSimple TPlain).result = true →
      (extract WSimple TPlain).task.extracted_bytes
        = sumSizes ((extract WSimple TPlain).written ++ (extract WSimple TPlain).skippedC)) ∧
    List.Chain' (· ≤ ·)
      ((extract WSimple TPlain).callbacks.map (fun c => c.extracted_bytes)) :=
  ⟨rfl, (extract_byte_accounting WSimple TPlain rfl).1,
   (extract_byte_accounting WSimple TPlain rfl).2⟩

/-! ## C9: default (ASK) conflict policy never overwrites -/

/-- Writing at a non-existing path preserves every existing binding. -/
theorem fsLookup_write_preserve {fs : FS} {target content p c : Str}
    (hex : fsExists fs target = false) (h : fsLookup fs p = some c) :
    fsLookup (fsWrite fs target content) p = some c := by
  have hne : target ≠ p := by
    intro he
    subst he
    rw [fsExists, h] at hex
    simp at hex
  simp only [fsWrite, fsLookup, if_neg hne]
  exact h

/-- Under the ASK policy the loop body keeps the policy and never changes
an existing file binding. -/
theorem processMember_ask_fs {extraction_base : Str} {timeMs : ℕ}
    {st : LoopState} {m : ZipEntry}
    (hp : st.task.conflict_resolution = ConflictResolution.ask) :
    (loopStateOf (processMember extraction_base timeMs st m)).task.conflict_resolution
      = ConflictResolution.ask ∧
    ∀ p c, fsLookup st.fs p = some c →
      fsLookup (loopStateOf (processMember extraction_base timeMs st m)).fs p = some c := by
  rw [processMember]
  dsimp only
  rw [hp]
  simp only [resolveConflict]
  split
  · split
    · exact ⟨rfl, fun p c h => h⟩
    · exact ⟨hp, fun p c h => h⟩
  · split
    · exact ⟨hp, fun p c h => h⟩
    · by_cases hex : fsExists st.fs (pyJoin extraction_base m.filename) = true
      · rw [if_pos hex]
        exact ⟨rfl, fun p c h => h⟩
      · have hex' : fsExists st.fs (pyJoin extraction_base m.filename) = false := by
          simpa using hex
        rw [if_neg hex]
        dsimp only
        split
        · exact ⟨rfl, fun p c h => h⟩
        · split
          · exact ⟨rfl, fun p c h => h⟩
          · exact ⟨rfl, fun p c h => h⟩
          · exact ⟨rfl, fun p c h => fsLookup_write_preserve hex' h⟩

/-- The whole loop, under the ASK policy, keeps every existing binding. -/
theorem runLoop_ask_fs {extraction_base : Str} {timeMs : ℕ} :
    ∀ (members : List ZipEntry) (st : LoopState),
      st.task.conflict_resolution = ConflictResolution.ask →
      ∀ p c, fsLookup st.fs p = some c →
        fsLookup (loopStateOf (runLoop extraction_base timeMs st members)).fs p = some c := by
  intro members
  induction members with
  | nil =>
    intro st _ p c h
    exact h
  | cons m rest ih =>
    intro st hp p c h
    have hm := @processMember_ask_fs extraction_base timeMs st m hp
    rw [runLoop]
    rcases hpm : processMember extraction_base timeMs st m with e | st'
    · rw [hpm] at hm
      obtain ⟨k, msg, stx⟩ := e
      exact hm.2 p c h
    · rw [hpm] at hm
      exact ih st' hm.1 p c (hm.2 p c h)

theorem runLoop_ok_ask_fs {B : Str} {T : ℕ} {S : LoopState}
    {members : List ZipEntry} {st' : LoopState}
    (h : runLoop B T S members = .ok st')
    (hpol : S.task.conflict_resolution = ConflictResolution.ask) :
    ∀ p c, fsLookup S.fs p = some c → fsLookup st'.fs p = some c := by
  intro p c hc
  have hx := @runLoop_ask_fs B T members S hpol p c hc
  rw [h] at hx
  exact hx

theorem runLoop_error_ask_fs {B : Str} {T : ℕ} {S : LoopState}
    {members : List ZipEntry} {k : ℕ} {msg : Str} {st' : LoopState}
    (h : runLoop B T S members = .error (k, msg, st'))
    (hpol : S.task.conflict_resolution = ConflictResolution.ask) :
    ∀ p c, fsLookup S.fs p = some c → fsLookup st'.fs p = some c := by
  intro p c hc
  have hx := @runLoop_ask_fs B T members S hpol p c hc
  rw [h] at hx
  exact hx

/-- The loop body on a safe, conflicting, non-directory entry under ASK:
skip without writing, without touching failed-files, advancing the byte
count by the declared size. -/
theorem processMember_ask_skip {extraction_base : Str} {timeMs : ℕ}
    {st : LoopState} {m : ZipEntry}
    (hp : st.task.conflict_resolution = ConflictResolution.ask)
    (hsafe : is_safe_path extraction_base m.filename = true)
    (hdir : m.is_dir = false)
    (hex : fsExists st.fs (pyJoin extraction_base m.filename) = true) :
    processMember extraction_base timeMs st m = Except.ok
      { st with
        task := { st.task with
          current_file := some m.filename
          extracted_bytes := st.task.extracted_bytes + m.file_size }
        callbacks := st.callbacks ++ [{ st.task with
          current_file := some m.filename
          extracted_bytes := st.task.extracted_bytes + m.file_size }]
        skippedC := st.skippedC ++ [m] } := by
  rw [processMember]
  simp [hsafe, hdir, hex, hp, resolveConflict]

/-- C9: with the ASK conflict policy (the default of `ExtractionTask`), an
entry whose target already exists is never written: every pre-existing file
binding survives the whole run unchanged, and the loop body on such an entry
returns without touching the filesystem or the failed-files list while
advancing `extracted_bytes` by the entry's declared size. -/
theorem extract_ask_preserves (w : World) (t : ExtractionTask)
    (hp : t.conflict_resolution = ConflictResolution.ask) :
    (∀ p c, fsLookup w.fs p = some c → fsLookup (extract w t).fs p = some c) ∧
    (∀ (extraction_base : Str) (timeMs : ℕ) (st : LoopState) (m : ZipEntry),
      st.task.conflict_resolution = ConflictResolution.ask →
      is_safe_path extraction_base m.filename = true →
      m.is_dir = false →
      fsExists st.fs (pyJoin extraction_base m.filename) = true →
      ∃ st', processMember extraction_base timeMs st m = Except.ok st' ∧
        st'.fs = st.fs ∧ st'.task.failed_files = st.task.failed_files ∧
        st'.task.extracted_bytes = st.task.extracted_bytes + m.file_size ∧
        st'.written = st.written) := by
  constructor
  · intro p c hpc
    simp only [extract]
    split
    · exact hpc
    · split
      · exact hpc
      · split
        · exact hpc
        · split
          · exact hpc
          · split
            · exact hpc
            · split
              · exact hpc
              · split
                · rename_i members' bad' hzip
                  split
                  · rename_i st0 hrl
                    exact runLoop_ok_ask_fs hrl hp p c hpc
                  · rename_i e k msg st0 hrl
                    exact runLoop_error_ask_fs hrl hp p c hpc
                · exact hpc
                · exact hpc
  · intro base ts st m hp' hsafe hdir hex
    exact ⟨_, processMember_ask_skip hp' hsafe hdir hex, rfl, rfl, rfl, rfl⟩

/-- A world with one entry colliding with a pre-existing file. -/
def WAsk : World :=
  { archiveExists := true
    zipOpen := .ok [{ filename := str "a.txt", is_dir := false, file_size := 5,
                      content := str "NEW" }] none
    diskUsage := fun _ => some 1000000
    fs := [(str "/out/a.txt", str "OLD")] }

/-- Witness for C9: the pre-existing file's contents survive, bytes advance,
nothing is recorded as failed. -/
theorem extract_ask_preserves_witness :
    TPlain.conflict_resolution = ConflictResolution.ask ∧
    fsLookup (extract WAsk TPlain).fs (str "/out/a.txt") = some (str "OLD") ∧
    (extract WAsk TPlain).task.extracted_bytes = 5 ∧
    (extract WAsk TPlain).task.failed_files = [] :=
  ⟨rfl, (extract_ask_preserves WAsk TPlain rfl).1 (str "/out/a.txt") (str "OLD") (by decide),
   by decide, by decide⟩
